import Mathlib

/-!
Shallow embedding of `src/ai-service/main.py` (viva-ai-standardizer).

The embedded core is: the Plan Executor `apply_plan`, the Fallback Rule
Engine `apply_fallback_acs`, the Improvement Judge inside `finalize`
(`nonnull_counts` / `changed`), and the plan-block extractor
`extract_json_block`.  Pandas tables are modelled as ordered named columns
of optional cells plus an explicit row count (`len(df)` is the length of
the index, which is meaningful even for a table with no columns).  JSON
values decoded by `json.loads` are modelled by `Jv`.  Library collaborators
(`pd.to_datetime`, `pd.to_numeric`, `str.strip`, `round`) are modelled by
explicit total functions; each model is documented at its definition.
-/

namespace VivaStd

/-- A calendar date, the date part of a pandas Timestamp. -/
structure Date where
  year : Nat
  month : Nat
  day : Nat
  deriving DecidableEq, Repr

/-- A scalar cell value as held in a DataFrame column: a string, a number
(ints and floats are merged into `ℚ` in this model), a boolean, or a date. -/
inductive Value where
  | str (s : String)
  | num (q : ℚ)
  | boolv (b : Bool)
  | date (d : Date)
  deriving DecidableEq, Repr

/-- A cell; `none` models `NaN` / `NaT` / `None`. -/
abbrev Cell := Option Value

/-- A pandas DataFrame: ordered named columns plus the explicit index
length.  `len(df) = nrows`; well-formed tables have every column of
length `nrows` (`Table.WF`). -/
structure Table where
  cols : List (String × List Cell)
  nrows : Nat
  deriving DecidableEq, Repr

/-- Column names of the table, in order (`df.columns`). -/
def Table.names (t : Table) : List String := t.cols.map Prod.fst

/-- Every column stores exactly `nrows` cells. -/
def Table.WF (t : Table) : Prop := ∀ p ∈ t.cols, p.2.length = t.nrows

instance (t : Table) : Decidable t.WF := by
  unfold Table.WF; infer_instance

/-- `col in df.columns` (the `has` helper in `apply_plan`). -/
def hasCol (t : Table) (c : String) : Bool := t.names.contains c

/-- `df[c]`: the cells of the first column named `c` (names are unique in
tables produced by `pd.read_excel`). -/
def getCol (t : Table) (c : String) : List Cell :=
  ((t.cols.find? (fun p => p.1 = c)).map Prod.snd).getD []

/-- `df[c] = series` for an existing column `c`: replaces the cells of the
column in place, keeping its position and leaving every other column and
the row count untouched. -/
def setCol (t : Table) (c : String) (v : List Cell) : Table :=
  { t with cols := t.cols.map (fun p => if p.1 = c then (p.1, v) else p) }

/-- Index alignment of a series of length `len(raw)` when assigned into a
table of `n` rows: positions beyond the series become null, extra series
entries are dropped (pandas aligns on the default RangeIndex). -/
def alignTo (n : Nat) (xs : List Cell) : List Cell :=
  xs.take n ++ List.replicate (n - xs.length) none

/-- `df.empty`: true when either axis is empty. -/
def pandasEmpty (t : Table) : Prop := t.nrows = 0 ∨ t.cols = []

instance (t : Table) : Decidable (pandasEmpty t) := by
  unfold pandasEmpty; infer_instance

/-- `pd.DataFrame(columns=ideal_df.columns, index=range(n))`: a table with
the same column names and `n` all-null rows. -/
def blankTable (names : List String) (n : Nat) : Table :=
  ⟨names.map (fun c => (c, List.replicate n (none : Cell))), n⟩

/-- The row-expansion guard shared by `apply_plan` (main.py:110-111),
`apply_fallback_acs` (main.py:195-196) and `finalize` (main.py:301-302):
`if len(ideal_df) == 0 and not raw_df.empty: ideal_df = pd.DataFrame(...)`. -/
def ensureRows (raw ideal : Table) : Table :=
  if ideal.nrows = 0 ∧ ¬ pandasEmpty raw then blankTable ideal.names raw.nrows
  else ideal

/-! ### Python string model -/

/-- Python `\s` / `str.strip` whitespace (ASCII part; the model restricts
the unicode whitespace classes to their ASCII members). -/
def isPySpace (c : Char) : Bool :=
  c = ' ' || c = '\t' || c = '\n' || c = '\r' || c = '\x0b' || c = '\x0c'

/-- `str.strip()` / `.str.strip()`: drop leading and trailing whitespace. -/
def pyStrip (s : String) : String :=
  ⟨((s.data.dropWhile isPySpace).reverse.dropWhile isPySpace).reverse⟩

/-- Left-pad a numeral with zeroes to width `w`. -/
def padNum (w : Nat) (n : Nat) : String :=
  let s := toString n
  ⟨List.replicate (w - s.length) '0'⟩ ++ s

/-- `str(datetime.date(y, m, d))`, i.e. ISO `YYYY-MM-DD`. -/
def dateStr (d : Date) : String :=
  padNum 4 d.year ++ "-" ++ padNum 2 d.month ++ "-" ++ padNum 2 d.day

def digitChar (d : Nat) : Char := Char.ofNat (48 + d)

/-- Decimal digits of the fractional part `n / d` (with `n < d`), by long
division; 50 digits of fuel cover every JSON-literal-derived rational. -/
def fracDigits : Nat → Nat → Nat → List Char
  | 0, _, _ => []
  | _, 0, _ => []
  | fuel + 1, n, d =>
    let n10 := n * 10
    digitChar (n10 / d) :: fracDigits fuel (n10 % d) d

/-- `str(x)` for a number: integers print without a decimal point, other
rationals print their (terminating, for JSON-derived values) decimal
expansion.  Models Python `str` on `int`/`float`. -/
def pyNumStr (q : ℚ) : String :=
  if q.den = 1 then toString q.num
  else
    let a : ℚ := |q|
    let ip : Nat := (⌊a⌋).toNat
    let fr : ℚ := a - (ip : ℚ)
    (if q < 0 then "-" else "") ++ toString ip ++ "." ++
      ⟨fracDigits 50 fr.num.toNat fr.den⟩

/-- `str(x)` on a cell value. -/
def Value.pyStr : Value → String
  | .str s => s
  | .num q => pyNumStr q
  | .boolv b => if b then "True" else "False"
  | .date d => dateStr d

/-- `fillna("").astype(str).str.strip()` applied to one cell. -/
def toStrippedStr (c : Cell) : String :=
  match c with
  | none => ""
  | some v => pyStrip v.pyStr

/-! ### Library collaborator models: `pd.to_numeric`, `pd.to_datetime`,
`round` -/

/-- Value of a nonempty all-digit character run. -/
def digitsVal (cs : List Char) : Option Nat :=
  if cs ≠ [] ∧ cs.all Char.isDigit then
    some (cs.foldl (fun a c => a * 10 + (c.toNat - 48)) 0)
  else none

/-- Parse an unsigned decimal literal (`12`, `12.`, `.5`, `12.345`). -/
def parseUnsignedDec (cs : List Char) : Option ℚ :=
  let ip := cs.takeWhile (fun c => c ≠ '.')
  let rest := cs.dropWhile (fun c => c ≠ '.')
  match rest with
  | [] => (digitsVal ip).map (fun n => (n : ℚ))
  | _ :: fp =>
    if fp.contains '.' then none
    else if ip = [] ∧ fp = [] then none
    else if ip.all Char.isDigit ∧ fp.all Char.isDigit then
      some (((ip.foldl (fun a c => a * 10 + (c.toNat - 48)) 0 : ℕ) : ℚ) +
        ((fp.foldl (fun a c => a * 10 + (c.toNat - 48)) 0 : ℕ) : ℚ) / (10 : ℚ) ^ fp.length)
    else none

/-- Model of numeric string coercion as done by `pd.to_numeric`:
surrounding whitespace is ignored, an optional sign precedes a decimal
literal; anything else is unparseable.  (Exponent notation is outside the
model; no claim exercises it.) -/
def parseNumStr (s : String) : Option ℚ :=
  match (pyStrip s).data with
  | '+' :: cs => parseUnsignedDec cs
  | '-' :: cs => (parseUnsignedDec cs).map Neg.neg
  | cs => parseUnsignedDec cs

/-- `pd.to_numeric(x, errors="coerce")` on one cell value: numbers pass
through, booleans coerce to 0/1, strings are parsed, anything else
(including dates, which no claim exercises) coerces to null. -/
def parseNumV (v : Value) : Option ℚ :=
  match v with
  | .num q => some q
  | .boolv b => some (if b then 1 else 0)
  | .str s => parseNumStr s
  | .date _ => none

def isLeap (y : Nat) : Bool := (y % 4 = 0 && y % 100 ≠ 0) || y % 400 = 0

def daysInMonth (y m : Nat) : Nat :=
  if m = 2 then (if isLeap y then 29 else 28)
  else if m = 4 ∨ m = 6 ∨ m = 9 ∨ m = 11 then 30
  else 31

/-- Split a character list on a separator character (the `-` of an ISO
date); the result always has one more part than there are separators. -/
def splitOnChar (sep : Char) : List Char → List (List Char)
  | [] => [[]]
  | c :: cs =>
    match splitOnChar sep cs with
    | [] => [[]]
    | h :: t => if c = sep then [] :: h :: t else (c :: h) :: t

/-- Model of `pd.to_datetime(x, errors="coerce")` on an ISO `YYYY-MM-DD`
string: parse and validate, anything invalid coerces to `NaT` (`none`). -/
def parseDateStr (s : String) : Option Date :=
  match splitOnChar '-' (pyStrip s).data with
  | [ys, ms, ds] =>
    match digitsVal ys, digitsVal ms, digitsVal ds with
    | some y, some m, some d =>
      if ys.length = 4 ∧ 1 ≤ m ∧ m ≤ 12 ∧ 1 ≤ d ∧ d ≤ daysInMonth y m then
        some ⟨y, m, d⟩
      else none
    | _, _, _ => none
  | _ => none

/-- `pd.to_datetime(x, errors="coerce")` on one cell value (the
`safe_to_datetime` helper, main.py:99-101): dates pass through, strings
are parsed, anything else coerces to `NaT` in this model. -/
def parseDateV (v : Value) : Option Date :=
  match v with
  | .date d => some d
  | .str s => parseDateStr s
  | _ => none

/-- Round to the nearest integer, ties to even — the rounding used by
`Series.round` (IEEE round-half-even, on the rational model). -/
def roundHalfEven (q : ℚ) : ℤ :=
  if q - (⌊q⌋ : ℚ) < 1/2 then ⌊q⌋
  else if 1/2 < q - (⌊q⌋ : ℚ) then ⌊q⌋ + 1
  else if Even ⌊q⌋ then ⌊q⌋ else ⌊q⌋ + 1

/-- `x.round(d)`: round to `d` decimal places, half to even. -/
def roundTo (q : ℚ) (d : ℤ) : ℚ :=
  (roundHalfEven (q * (10 : ℚ) ^ d) : ℚ) / (10 : ℚ) ^ d

/-! ### JSON values (`json.loads` output) -/

/-- A decoded JSON value, as produced by `json.loads` on the extracted
plan text.  Python ints and floats are merged into `ℚ`. -/
inductive Jv where
  | null
  | boolv (b : Bool)
  | str (s : String)
  | num (q : ℚ)
  | arr (xs : List Jv)
  | obj (kvs : List (String × Jv))

/-- `d.get(key)` with default on a decoded JSON dict. -/
def dgetD (kvs : List (String × Jv)) (key : String) (dflt : Jv) : Jv :=
  ((kvs.find? (fun p => p.1 = key)).map Prod.snd).getD dflt

/-- `d.get(key)` (absent keys give `None`). -/
def dget (kvs : List (String × Jv)) (key : String) : Jv := dgetD kvs key .null

/-- Python `v == s` for a string literal `s`: only an actual string can
compare equal to a string. -/
def jeqs (v : Jv) (s : String) : Bool :=
  match v with
  | .str t => t = s
  | _ => false

mutual
/-- `repr(x)` on a decoded JSON value (strings are quoted). -/
def jrepr : Jv → String
  | .null => "None"
  | .boolv b => if b then "True" else "False"
  | .num q => pyNumStr q
  | .str s => "\x27" ++ s ++ "\x27"
  | .arr xs => "[" ++ jreprList xs ++ "]"
  | .obj kvs => "\x7b" ++ jreprObj kvs ++ "\x7d"

def jreprList : List Jv → String
  | [] => ""
  | [x] => jrepr x
  | x :: y :: xs => jrepr x ++ ", " ++ jreprList (y :: xs)

def jreprObj : List (String × Jv) → String
  | [] => ""
  | [p] => "\x27" ++ p.1 ++ "\x27: " ++ jrepr p.2
  | p :: q :: xs => "\x27" ++ p.1 ++ "\x27: " ++ jrepr p.2 ++ ", " ++ jreprObj (q :: xs)
end

/-- `str(x)` / f-string interpolation of a decoded JSON value: like
`repr` except that a top-level string prints unquoted. -/
def jstr (v : Jv) : String :=
  match v with
  | .str s => s
  | _ => jrepr v

/-- Python iteration (`for x in v` / generator argument of `all`):
lists iterate their items, strings iterate their characters, dicts their
keys; other values raise `TypeError`. -/
def pyIter (v : Jv) : Except String (List Jv) :=
  match v with
  | .arr xs => .ok xs
  | .str s => .ok (s.data.map (fun c => .str (String.singleton c)))
  | .obj kvs => .ok (kvs.map (fun p => .str p.1))
  | _ => .error "TypeError: object is not iterable"

/-- `int(x)`: truncate numbers toward zero, parse integer-literal strings
(surrounding whitespace allowed), map booleans to 0/1; everything else
raises. -/
def pyInt (v : Jv) : Except String Int :=
  match v with
  | .num q => .ok (if q < 0 then ⌈q⌉ else ⌊q⌋)
  | .boolv b => .ok (if b then 1 else 0)
  | .str s =>
    match (pyStrip s).data with
    | '+' :: cs => match digitsVal cs with
      | some n => .ok (n : Int)
      | none => .error "ValueError: invalid literal for int() with base 10"
    | '-' :: cs => match digitsVal cs with
      | some n => .ok (-(n : Int))
      | none => .error "ValueError: invalid literal for int() with base 10"
    | cs => match digitsVal cs with
      | some n => .ok (n : Int)
      | none => .error "ValueError: invalid literal for int() with base 10"
  | .null => .error "TypeError: int() argument must be a string or a number, not NoneType"
  | _ => .error "TypeError: int() argument must be a string or a number"

/-- `m.get(...)` on a non-dict operation raises `AttributeError`. -/
def attrError : String := "AttributeError: object has no attribute \x27get\x27"

/-- `col in df.columns` where the tested value comes from JSON: only a
string can equal a (string) column name. -/
def hasColJ (t : Table) (v : Jv) : Bool :=
  match v with
  | .str s => hasCol t s
  | _ => false

/-- The string under a `Jv` known (from a `hasColJ` guard) to be a string. -/
def asStr (v : Jv) : String :=
  match v with
  | .str s => s
  | _ => ""

/-! ### The Plan Executor: `apply_plan` (main.py:103-190)

Each `op*` definition below embeds one branch of the `if op == ...` chain
in the loop body; `Except.error` models an exception escaping the branch
(caught by the per-operation `try`/`except` in `planStep`). -/

/-- The `op == "copy"` branch (main.py:119-125). -/
def opCopy (kvs : List (String × Jv)) (raw ideal : Table) : Table × String :=
  let src := dget kvs "source"
  let tgt := dget kvs "target"
  if hasColJ raw src && hasColJ ideal tgt then
    let s := asStr src
    let t := asStr tgt
    (setCol ideal t (alignTo ideal.nrows (getCol raw s)),
      "Mapped \"" ++ s ++ "\" → \"" ++ t ++ "\"")
  else
    (ideal, "Skipped copy \"" ++ jstr src ++ "\"→\"" ++ jstr tgt ++ "\" (missing col)")

/-- The columnwise fold of the `concat` branch:
`out = vals[0]; for v in vals[1:]: out = (out + sep + v).str.strip()`. -/
def concatFold (sep : String) (v0 : List String) (vs : List (List String)) : List String :=
  vs.foldl (fun acc v => List.zipWith (fun a b => pyStrip (a ++ sep ++ b)) acc v) v0

/-- `s` is matched by the regex `^\s*$` (whitespace-only, incl. empty). -/
def isWsOnly (s : String) : Bool := s.data.all isPySpace

/-- `.replace({"^\s*$": None}, regex=True)` on one already-computed string
cell: whitespace-only strings become null. -/
def strippedCell (s : String) : Cell :=
  if isWsOnly s then none else some (.str s)

/-- The `op == "concat"` branch (main.py:127-139).  A non-iterable
`sources` raises in the guard; an empty `sources` list that passes the
guard raises `IndexError` at `vals[0]`; a non-string separator raises
`TypeError` in `out + sep + v` (only reached with ≥ 2 sources). -/
def concatAssign (srcsJ tgt : Jv) (ideal : Table) (out : List String) :
    Except String (Table × String) :=
  .ok (setCol ideal (asStr tgt) (alignTo ideal.nrows (out.map strippedCell)),
    "Concatenated " ++ jstr srcsJ ++ " → \"" ++ jstr tgt ++ "\"")

def opConcat (kvs : List (String × Jv)) (raw ideal : Table) :
    Except String (Table × String) :=
  let srcsJ := dgetD kvs "sources" (.arr [])
  let sepJ := dgetD kvs "separator" (.str " ")
  let tgt := dget kvs "target"
  match pyIter srcsJ with
  | .error e => .error e
  | .ok srcs =>
    if srcs.all (fun s => hasColJ raw s) && hasColJ ideal tgt then
      match srcs.map (fun s => (getCol raw (asStr s)).map toStrippedStr) with
      | [] => .error "IndexError: list index out of range"
      | v0 :: rest =>
        match rest, sepJ with
        | [], _ => concatAssign srcsJ tgt ideal v0
        | _ :: _, .str sep => concatAssign srcsJ tgt ideal (concatFold sep v0 rest)
        | _ :: _, _ => .error "TypeError: can only concatenate str (not a non-string) to str"
    else
      .ok (ideal, "Skipped concat " ++ jstr srcsJ ++ "→\"" ++ jstr tgt ++ "\" (missing col)")

/-- The `op == "date_copy"` branch (main.py:141-148). -/
def opDateCopy (kvs : List (String × Jv)) (raw ideal : Table) : Table × String :=
  let src := dget kvs "source"
  let tgt := dget kvs "target"
  if hasColJ raw src && hasColJ ideal tgt then
    let s := asStr src
    let t := asStr tgt
    let dt := (getCol raw s).map (fun c => c.bind parseDateV)
    (setCol ideal t (alignTo ideal.nrows (dt.map (Option.map Value.date))),
      "Date copy \"" ++ s ++ "\" → \"" ++ t ++ "\"")
  else
    (ideal, "Skipped date_copy \"" ++ jstr src ++ "\"→\"" ++ jstr tgt ++ "\" (missing col)")

/-- The `op == "calendar_year"` branch (main.py:150-157). -/
def opCalYear (kvs : List (String × Jv)) (raw ideal : Table) : Table × String :=
  let src := dget kvs "source"
  let tgt := dget kvs "target"
  if hasColJ raw src && hasColJ ideal tgt then
    let s := asStr src
    let t := asStr tgt
    let dt := (getCol raw s).map (fun c => c.bind parseDateV)
    (setCol ideal t (alignTo ideal.nrows
        (dt.map (Option.map (fun d => Value.num (d.year : ℚ))))),
      "Calendar Year from \"" ++ s ++ "\" → \"" ++ t ++ "\"")
  else
    (ideal, "Skipped calendar_year \"" ++ jstr src ++ "\"→\"" ++ jstr tgt ++ "\" (missing col)")

/-- The `op == "fiscal_year_july_june"` branch (main.py:159-166):
`dt.dt.year + (dt.dt.month >= 7).astype("Int64")`, with `NaT` rows
propagating to null through the `NaN` year. -/
def opFiscal (kvs : List (String × Jv)) (raw ideal : Table) : Table × String :=
  let src := dget kvs "source"
  let tgt := dget kvs "target"
  if hasColJ raw src && hasColJ ideal tgt then
    let s := asStr src
    let t := asStr tgt
    let dt := (getCol raw s).map (fun c => c.bind parseDateV)
    (setCol ideal t (alignTo ideal.nrows
        (dt.map (Option.map (fun d =>
          Value.num ((d.year : ℚ) + (if 7 ≤ d.month then 1 else 0)))))),
      "Fiscal Year (July–June) from \"" ++ s ++ "\" → \"" ++ t ++ "\"")
  else
    (ideal, "Skipped fiscal_year \"" ++ jstr src ++ "\"→\"" ++ jstr tgt ++ "\" (missing col)")

/-- The `op == "numeric_copy"` branch (main.py:168-175).  Note
`decimals = int(m.get("decimals", 2))` runs before the column guard, so a
bad `decimals` raises even when columns are missing. -/
def opNumeric (kvs : List (String × Jv)) (raw ideal : Table) :
    Except String (Table × String) :=
  let src := dget kvs "source"
  let tgt := dget kvs "target"
  match pyInt (dgetD kvs "decimals" (.num 2)) with
  | .error e => .error e
  | .ok decimals =>
    if hasColJ raw src && hasColJ ideal tgt then
      let s := asStr src
      let t := asStr tgt
      let outc := (getCol raw s).map
        (fun c => ((c.bind parseNumV).map (fun q => Value.num (roundTo q decimals))))
      .ok (setCol ideal t (alignTo ideal.nrows outc),
        "Numeric copy \"" ++ s ++ "\" → \"" ++ t ++ "\" (round " ++ toString decimals ++ ")")
    else
      .ok (ideal, "Skipped numeric_copy \"" ++ jstr src ++ "\"→\"" ++ jstr tgt ++ "\" (missing col)")

/-- One JSON scalar broadcast into a cell (`fill_const` assignment). -/
def scalarCell (v : Jv) : Except String Cell :=
  match v with
  | .null => .ok none
  | .str s => .ok (some (.str s))
  | .num q => .ok (some (.num q))
  | .boolv b => .ok (some (.boolv b))
  | _ => .error "TypeError: unsupported constant"

/-- `ideal_df[tgt] = val` for a constant `val`: scalars broadcast to every
row, a list must match the row count exactly (else `ValueError`); nested
containers are outside the model and raise. -/
def broadcastConst (v : Jv) (n : Nat) : Except String (List Cell) :=
  match v with
  | .arr xs =>
    if xs.length = n then xs.mapM scalarCell
    else .error "ValueError: Length of values does not match length of index"
  | .obj _ => .error "TypeError: unsupported constant"
  | _ =>
    match scalarCell v with
    | .ok c => .ok (List.replicate n c)
    | .error e => .error e

/-- The `op == "fill_const"` branch (main.py:177-183). -/
def opFillConst (kvs : List (String × Jv)) (ideal : Table) :
    Except String (Table × String) :=
  let val := dget kvs "value"
  let tgt := dget kvs "target"
  if hasColJ ideal tgt then
    match broadcastConst val ideal.nrows with
    | .error e => .error e
    | .ok cells =>
      .ok (setCol ideal (asStr tgt) cells,
        "Filled constant \"" ++ jstr val ++ "\" → \"" ++ asStr tgt ++ "\"")
  else
    .ok (ideal, "Skipped fill_const \"" ++ jstr val ++ "\"→\"" ++ jstr tgt ++ "\" (missing col)")

/-- The body of the `for m in mappings` loop (main.py:117-186) without its
`try`/`except`: dispatch on `m.get("op")`.  `Except.error` models an
exception escaping the body. -/
def applyOp (m : Jv) (raw ideal : Table) : Except String (Table × String) :=
  match m with
  | .obj kvs =>
    let op := dget kvs "op"
    if jeqs op "copy" then .ok (opCopy kvs raw ideal)
    else if jeqs op "concat" then opConcat kvs raw ideal
    else if jeqs op "date_copy" then .ok (opDateCopy kvs raw ideal)
    else if jeqs op "calendar_year" then .ok (opCalYear kvs raw ideal)
    else if jeqs op "fiscal_year_july_june" then .ok (opFiscal kvs raw ideal)
    else if jeqs op "numeric_copy" then opNumeric kvs raw ideal
    else if jeqs op "fill_const" then opFillConst kvs ideal
    else .ok (ideal, "Unknown op \x27" ++ jstr op ++ "\x27 skipped")
  | _ => .error attrError

/-- One loop iteration with its `try`/`except` (main.py:116-188): an
exception inside the body degrades to a `[PLAN_APPLY_ERROR]` log line and
leaves the table untouched. -/
def planStep (raw d : Table) (m : Jv) : Table × String :=
  match applyOp m raw d with
  | .ok p => p
  | .error e => (d, "[PLAN_APPLY_ERROR] " ++ e)

/-- The whole `for m in mappings` loop: threads the table through the
operations and collects one log line per operation, in plan order. -/
def applyMappings (raw : Table) : Table → List Jv → Table × List String
  | d, [] => (d, [])
  | d, m :: rest =>
    let p := planStep raw d m
    let r := applyMappings raw p.1 rest
    (r.1, p.2 :: r.2)

/-- `plan.get("mappings", []) if isinstance(plan, dict) else []`
(main.py:115). -/
def getMappings (plan : Jv) : Jv :=
  match plan with
  | .obj kvs => dgetD kvs "mappings" (.arr [])
  | _ => .arr []

/-- `apply_plan` (main.py:103-190): expand an empty ideal table to the raw
row count, then run the mapping loop.  The only uncaught exception is a
non-iterable `mappings` value (the `for` statement itself). -/
def apply_plan (plan : Jv) (raw ideal : Table) :
    Except String (Table × List String) :=
  match pyIter (getMappings plan) with
  | .error e => .error e
  | .ok ms => .ok (applyMappings raw (ensureRows raw ideal) ms)

/-! ### The Fallback Rule Engine: `apply_fallback_acs` (main.py:192-250) -/

/-- One fallback direct-copy rule: `if has(raw, src) and tgt in ideal:
ideal[tgt] = raw[src]` plus its log line. -/
def fbCopy (raw : Table) (src tgt line : String) (st : Table × List String) :
    Table × List String :=
  if hasCol raw src && hasCol st.1 tgt then
    (setCol st.1 tgt (alignTo st.1.nrows (getCol raw src)), st.2 ++ [line])
  else st

/-- The rule chain of `apply_fallback_acs` after row expansion
(main.py:199-249), applied in source order; each rule fires independently
of the others. -/
def fallbackRules (raw : Table) (ideal : Table) : Table × List String :=
  let st : Table × List String := (ideal, [])
  -- Agreement = "ACS" (main.py:199-201)
  let st :=
    if hasCol st.1 "Agreement" then
      (setCol st.1 "Agreement" (List.replicate st.1.nrows (some (Value.str "ACS"))),
        st.2 ++ ["Set Agreement = \"ACS\""])
    else st
  -- Manuscript DOI → Article DOI (main.py:203-205)
  let st := fbCopy raw "Manuscript DOI" "Article DOI" "Manuscript DOI → Article DOI" st
  -- Corresponding Author First/Last → Author Name (main.py:207-212)
  let st :=
    if hasCol raw "Corresponding Author First Name" &&
        hasCol raw "Corresponding Author Last Name" && hasCol st.1 "Author Name" then
      let first := (getCol raw "Corresponding Author First Name").map
        (fun c => match c with | none => "" | some v => v.pyStr)
      let last := (getCol raw "Corresponding Author Last Name").map
        (fun c => match c with | none => "" | some v => v.pyStr)
      let joined := List.zipWith
        (fun a b => pyStrip (pyStrip a ++ " " ++ pyStrip b)) first last
      (setCol st.1 "Author Name" (alignTo st.1.nrows (joined.map strippedCell)),
        st.2 ++ ["Corresponding Author First/Last → Author Name"])
    else st
  -- Manuscript Title Text → Article Title (main.py:214-216)
  let st := fbCopy raw "Manuscript Title Text" "Article Title"
    "Manuscript Title Text → Article Title" st
  -- Journal Title Name → Journal Title (main.py:218-220)
  let st := fbCopy raw "Journal Title Name" "Journal Title"
    "Journal Title Name → Journal Title" st
  -- ASAP Pub Date → Publication Date / Calendar Year / Fiscal Year
  -- (main.py:222-232), three independent targets from one parsed date
  let st :=
    if hasCol raw "ASAP Pub Date" then
      let dt := (getCol raw "ASAP Pub Date").map (fun c => c.bind parseDateV)
      let st :=
        if hasCol st.1 "Publication Date" then
          (setCol st.1 "Publication Date"
              (alignTo st.1.nrows (dt.map (Option.map Value.date))),
            st.2 ++ ["ASAP Pub Date → Publication Date"])
        else st
      let st :=
        if hasCol st.1 "Calendar Year" then
          (setCol st.1 "Calendar Year"
              (alignTo st.1.nrows (dt.map (Option.map (fun d => Value.num (d.year : ℚ))))),
            st.2 ++ ["Calendar Year from ASAP Pub Date"])
        else st
      let st :=
        if hasCol st.1 "Fiscal Year" then
          (setCol st.1 "Fiscal Year"
              (alignTo st.1.nrows (dt.map (Option.map (fun d =>
                Value.num ((d.year : ℚ) + (if 7 ≤ d.month then 1 else 0)))))),
            st.2 ++ ["Fiscal Year (July–June) from ASAP Pub Date"])
        else st
      st
    else st
  -- Transacting Profile Name → Author Affiliation (main.py:234-236)
  let st := fbCopy raw "Transacting Profile Name" "Author Affiliation"
    "Transacting Profile Name → Author Affiliation" st
  -- Retail Price → APC, numeric round 2 (main.py:238-240)
  let st :=
    if hasCol raw "Retail Price" && hasCol st.1 "APC" then
      (setCol st.1 "APC" (alignTo st.1.nrows ((getCol raw "Retail Price").map
          (fun c => (c.bind parseNumV).map (fun q => Value.num (roundTo q 2))))),
        st.2 ++ ["Retail Price → APC (2 decimals)"])
    else st
  -- Purchase License Summary → License (main.py:242-244)
  let st := fbCopy raw "Purchase License Summary" "License"
    "Purchase License Summary → License" st
  -- Journal Type Code → Gold or Hybrid OA (main.py:246-248)
  let st := fbCopy raw "Journal Type Code" "Gold or Hybrid OA"
    "Journal Type Code → Gold or Hybrid OA" st
  st

/-- `apply_fallback_acs` (main.py:192-250): expand an empty ideal table to
the raw row count (main.py:195-196), then apply the fixed ACS rule set. -/
def apply_fallback_acs (raw ideal : Table) : Table × List String :=
  fallbackRules raw (ensureRows raw ideal)

/-! ### The Improvement Judge and the finalize core (main.py:330-341) -/

/-- `nonnull_counts(df)[c]`, with the `.get(c, 0)` default for a column
the table does not have: number of non-null cells of column `c`
(main.py:331-332). -/
def nonnull_count (t : Table) (c : String) : Nat :=
  match t.cols.find? (fun p => p.1 = c) with
  | some p => (p.2.filter Option.isSome).length
  | none => 0

/-- `changed = any(after_counts.get(c, 0) > before_counts.get(c, 0) for c
in new_ideal_df.columns)` (main.py:335). -/
def improved (before after : Table) : Bool :=
  after.cols.any (fun p => nonnull_count before p.1 < nonnull_count after p.1)

/-- The table produced by step 4 of `finalize` (main.py:318-328):
`new_ideal_df = ideal_df.copy()` then `apply_plan` on it when a plan was
extracted and parsed (`plan = some p`); on no plan, a parse failure, or an
exception out of `apply_plan`, the pre-plan copy is kept. -/
def planOutcome (plan : Option Jv) (raw ideal : Table) : Table :=
  match plan with
  | some p =>
    match apply_plan p raw ideal with
    | .ok r => r.1
    | .error _ => ideal
  | none => ideal

/-- The output table of `finalize` (main.py:298-341): row expansion
(step 2), plan execution on a copy (step 4), then the Improvement Judge
gating the fallback, which is applied to the pre-plan `ideal_df`
(step 5). -/
def finalize_table (plan : Option Jv) (raw ideal0 : Table) : Table :=
  let ideal := ensureRows raw ideal0
  let newIdeal := planOutcome plan raw ideal
  if improved ideal newIdeal then newIdeal
  else (apply_fallback_acs raw ideal).1

/-! ### The plan-block extractor: `extract_json_block` (main.py:50-57)

The two `re.search` calls are hand-compiled to deterministic scanners.

Fenced pattern `r"```json\s*(\{.*?\})\s*```"` with `re.DOTALL`:
`re.search` tries each start position from the left; at a given position
the literal ````` ```json ````` must match, the greedy `\s*` then commits
to the maximal whitespace run (no shorter run can be followed by `{`,
since a whitespace character is not `{`), the group must start with `{`,
the lazy `.*?\}` commits to the earliest `}` whose continuation matches,
and the continuation `\s*```` ` again commits to the maximal whitespace
run (a backtick is not whitespace).

Fallback pattern `r"(\{.*\})"` with `re.DOTALL`: a match exists iff some
`{` is followed by a later `}`; the leftmost-greedy match runs from the
first `{` of the text to the last `}` of the text (if the last `}` sat at
or before the first `{`, no later `{` could close either). -/

def lbrace : Char := Char.ofNat 123

def rbrace : Char := Char.ofNat 125

/-- Maximal-whitespace-run skip (`\s*` committed as argued above). -/
def dropWs (cs : List Char) : List Char := cs.dropWhile isPySpace

/-- The closing fence ````` ``` `````. -/
def fence3 : List Char := "```".data

/-- The opening fence literal ````` ```json `````. -/
def fenceOpen : List Char := "```json".data

/-- Scan the group body after its opening `{`: take the earliest `}`
followed (after whitespace) by the closing fence; earlier `}`s whose
continuation fails are consumed by the lazy `.*?`.  Returns the group
characters after the opening `{`, `}` included. -/
def fencedBody : List Char → Option (List Char)
  | [] => none
  | c :: cs =>
    if c = rbrace && fence3.isPrefixOf (dropWs cs) then some [c]
    else
      match fencedBody cs with
      | some g => some (c :: g)
      | none => none

/-- Attempt the fenced pattern anchored at the current position. -/
def matchFencedAt (cs : List Char) : Option (List Char) :=
  if fenceOpen.isPrefixOf cs then
    match dropWs (cs.drop fenceOpen.length) with
    | c :: body => if c = lbrace then (fencedBody body).map (fun g => c :: g) else none
    | [] => none
  else none

/-- `re.search` for the fenced pattern: leftmost start position wins. -/
def findFenced : List Char → Option (List Char)
  | [] => none
  | cs@(_ :: rest) =>
    match matchFencedAt cs with
    | some g => some g
    | none => findFenced rest

/-- Index of the first `{` of the text. -/
def firstBrace : List Char → Option Nat
  | [] => none
  | c :: cs => if c = lbrace then some 0 else (firstBrace cs).map (· + 1)

/-- Index of the last `}` of the text. -/
def lastClose : List Char → Option Nat
  | [] => none
  | c :: cs =>
    match lastClose cs with
    | some j => some (j + 1)
    | none => if c = rbrace then some 0 else none

/-- `re.search(r"(\{.*\})", text, re.DOTALL)`: the segment from the first
`{` to the last `}`, when the former precedes the latter. -/
def braceBlock (cs : List Char) : Option (List Char) :=
  match firstBrace cs, lastClose cs with
  | some i, some j => if i < j then some ((cs.drop i).take (j - i + 1)) else none
  | _, _ => none

/-- `extract_json_block` (main.py:50-57). -/
def extract_json_block (text : String) : String :=
  match findFenced text.data with
  | some g => pyStrip ⟨g⟩
  | none =>
    match braceBlock text.data with
    | some g => pyStrip ⟨g⟩
    | none => ""

/-! ## Structural lemmas about the executor -/

lemma setCol_names (t : Table) (c : String) (v : List Cell) :
    (setCol t c v).names = t.names := by
  unfold setCol Table.names
  simp only [List.map_map]
  apply List.map_congr_left
  intro p _
  by_cases h : p.1 = c <;> simp [h, Function.comp]

lemma setCol_nrows (t : Table) (c : String) (v : List Cell) :
    (setCol t c v).nrows = t.nrows := rfl

lemma opCopy_shape (kvs : List (String × Jv)) (raw d : Table) :
    (opCopy kvs raw d).1 = d ∨ ∃ c v, (opCopy kvs raw d).1 = setCol d c v := by
  simp only [opCopy]
  split
  · exact Or.inr ⟨_, _, rfl⟩
  · exact Or.inl rfl

lemma opConcat_ok_shape (kvs : List (String × Jv)) (raw d t : Table) (l : String)
    (h : opConcat kvs raw d = .ok (t, l)) :
    t = d ∨ ∃ c v, t = setCol d c v := by
  simp only [opConcat, concatAssign] at h
  split at h
  · cases h
  · split at h
    · split at h
      · cases h
      · split at h
        · cases h; exact Or.inr ⟨_, _, rfl⟩
        · cases h; exact Or.inr ⟨_, _, rfl⟩
        · cases h
    · cases h; exact Or.inl rfl

lemma opDateCopy_shape (kvs : List (String × Jv)) (raw d : Table) :
    (opDateCopy kvs raw d).1 = d ∨ ∃ c v, (opDateCopy kvs raw d).1 = setCol d c v := by
  simp only [opDateCopy]
  split
  · exact Or.inr ⟨_, _, rfl⟩
  · exact Or.inl rfl

lemma opCalYear_shape (kvs : List (String × Jv)) (raw d : Table) :
    (opCalYear kvs raw d).1 = d ∨ ∃ c v, (opCalYear kvs raw d).1 = setCol d c v := by
  simp only [opCalYear]
  split
  · exact Or.inr ⟨_, _, rfl⟩
  · exact Or.inl rfl

lemma opFiscal_shape (kvs : List (String × Jv)) (raw d : Table) :
    (opFiscal kvs raw d).1 = d ∨ ∃ c v, (opFiscal kvs raw d).1 = setCol d c v := by
  simp only [opFiscal]
  split
  · exact Or.inr ⟨_, _, rfl⟩
  · exact Or.inl rfl

lemma opNumeric_ok_shape (kvs : List (String × Jv)) (raw d t : Table) (l : String)
    (h : opNumeric kvs raw d = .ok (t, l)) :
    t = d ∨ ∃ c v, t = setCol d c v := by
  simp only [opNumeric] at h
  split at h
  · cases h
  · split at h
    · cases h; exact Or.inr ⟨_, _, rfl⟩
    · cases h; exact Or.inl rfl

lemma opFillConst_ok_shape (kvs : List (String × Jv)) (d t : Table) (l : String)
    (h : opFillConst kvs d = .ok (t, l)) :
    t = d ∨ ∃ c v, t = setCol d c v := by
  simp only [opFillConst] at h
  split at h
  · split at h
    · cases h
    · cases h; exact Or.inr ⟨_, _, rfl⟩
  · cases h; exact Or.inl rfl

/-- Every successfully applied operation either leaves the table alone or
overwrites the cells of one (already existing) column. -/
lemma applyOp_ok_shape (m : Jv) (raw d t : Table) (l : String)
    (h : applyOp m raw d = .ok (t, l)) :
    t = d ∨ ∃ c v, t = setCol d c v := by
  cases m with
  | obj kvs =>
    simp only [applyOp] at h
    split at h
    · injection h with h2
      have ht : t = (opCopy kvs raw d).1 := by rw [h2]
      rw [ht]; exact opCopy_shape kvs raw d
    · split at h
      · exact opConcat_ok_shape kvs raw d t l h
      · split at h
        · injection h with h2
          have ht : t = (opDateCopy kvs raw d).1 := by rw [h2]
          rw [ht]; exact opDateCopy_shape kvs raw d
        · split at h
          · injection h with h2
            have ht : t = (opCalYear kvs raw d).1 := by rw [h2]
            rw [ht]; exact opCalYear_shape kvs raw d
          · split at h
            · injection h with h2
              have ht : t = (opFiscal kvs raw d).1 := by rw [h2]
              rw [ht]; exact opFiscal_shape kvs raw d
            · split at h
              · exact opNumeric_ok_shape kvs raw d t l h
              · split at h
                · exact opFillConst_ok_shape kvs d t l h
                · cases h; exact Or.inl rfl
  | null => cases h
  | boolv b => cases h
  | str s => cases h
  | num q => cases h
  | arr xs => cases h

lemma planStep_shape (raw d : Table) (m : Jv) :
    (planStep raw d m).1 = d ∨ ∃ c v, (planStep raw d m).1 = setCol d c v := by
  unfold planStep
  split
  · next p heq =>
    cases p with
    | mk t l => exact applyOp_ok_shape m raw d t l heq
  · exact Or.inl rfl

lemma planStep_names (raw d : Table) (m : Jv) :
    (planStep raw d m).1.names = d.names := by
  rcases planStep_shape raw d m with h | ⟨c, v, h⟩
  · rw [h]
  · rw [h, setCol_names]

lemma planStep_nrows (raw d : Table) (m : Jv) :
    (planStep raw d m).1.nrows = d.nrows := by
  rcases planStep_shape raw d m with h | ⟨c, v, h⟩
  · rw [h]
  · rw [h, setCol_nrows]

lemma applyMappings_names (raw : Table) (ms : List Jv) (d : Table) :
    (applyMappings raw d ms).1.names = d.names := by
  induction ms generalizing d with
  | nil => rfl
  | cons m rest ih =>
    simp only [applyMappings]
    rw [ih, planStep_names]

lemma applyMappings_nrows (raw : Table) (ms : List Jv) (d : Table) :
    (applyMappings raw d ms).1.nrows = d.nrows := by
  induction ms generalizing d with
  | nil => rfl
  | cons m rest ih =>
    simp only [applyMappings]
    rw [ih, planStep_nrows]

lemma blankTable_names (ns : List String) (n : Nat) :
    (blankTable ns n).names = ns := by
  unfold blankTable Table.names
  simp only [List.map_map]
  have h : (Prod.fst ∘ fun c : String => (c, List.replicate n (none : Cell))) = id := rfl
  rw [h, List.map_id]

lemma ensureRows_names (raw i : Table) : (ensureRows raw i).names = i.names := by
  unfold ensureRows
  split
  · exact blankTable_names i.names raw.nrows
  · rfl

/-- C1: for every plan and pair of tables, whenever the Plan Executor
returns an output table, that table has exactly the columns (set and
order) of the input ideal table — no operation adds or removes a column. -/
theorem claim_C1_columns_preserved (plan : Jv) (raw ideal out : Table)
    (log : List String) (h : apply_plan plan raw ideal = .ok (out, log)) :
    out.names = ideal.names := by
  simp only [apply_plan] at h
  split at h
  · cases h
  · next ms heq =>
    injection h with h2
    have ht : out = (applyMappings raw (ensureRows raw ideal) ms).1 := by rw [h2]
    rw [ht, applyMappings_names, ensureRows_names]

def planW : Jv :=
  .obj [("mappings", .arr [.obj [("op", .str "copy"),
    ("source", .str "A"), ("target", .str "B")]])]

def rawW : Table := ⟨[("A", [some (.str "x")])], 1⟩

def idealW : Table := ⟨[("B", [none])], 1⟩

def outW : Table := ⟨[("B", [some (.str "x")])], 1⟩

/-- Witness for C1 at a concrete one-operation plan. -/
theorem claim_C1_columns_preserved_witness : outW.names = idealW.names :=
  claim_C1_columns_preserved planW rawW idealW outW ["Mapped \"A\" → \"B\""] rfl

lemma applyMappings_append (raw : Table) (ms₁ ms₂ : List Jv) (d : Table) :
    applyMappings raw d (ms₁ ++ ms₂)
      = ((applyMappings raw (applyMappings raw d ms₁).1 ms₂).1,
         (applyMappings raw d ms₁).2
           ++ (applyMappings raw (applyMappings raw d ms₁).1 ms₂).2) := by
  induction ms₁ generalizing d with
  | nil => simp [applyMappings]
  | cons m rest ih =>
    simp only [List.cons_append, applyMappings, List.append_eq]
    rw [ih]

lemma applyMappings_log_length (raw : Table) (d : Table) (ms : List Jv) :
    (applyMappings raw d ms).2.length = ms.length := by
  induction ms generalizing d with
  | nil => rfl
  | cons m rest ih =>
    simp only [applyMappings, List.length_cons, ih]

/-- C2: the Plan Executor's operation loop is total (neither `planStep`
nor `applyMappings` can fail): a malformed operation never escapes as an
exception.  Moreover (1) every attempted operation — applied, skipped,
unknown-kind or errored — produces exactly one log line; (2) the log of
the whole plan decomposes around any operation in plan order, so the
remaining operations after a bad one are still attempted; and (3) an
operation whose body raises `e` contributes exactly the log line
`"[PLAN_APPLY_ERROR] " ++ e` and leaves the table untouched. -/
theorem claim_C2_per_op_isolation :
    (∀ raw d ms, (applyMappings raw d ms).2.length = ms.length)
    ∧ (∀ raw d ms₁ m ms₂,
        (applyMappings raw d (ms₁ ++ m :: ms₂)).2
          = (applyMappings raw d ms₁).2
            ++ (planStep raw (applyMappings raw d ms₁).1 m).2
              :: (applyMappings raw (planStep raw (applyMappings raw d ms₁).1 m).1 ms₂).2)
    ∧ (∀ raw d m e, applyOp m raw d = .error e →
        planStep raw d m = (d, "[PLAN_APPLY_ERROR] " ++ e)) := by
  refine ⟨applyMappings_log_length, ?_, ?_⟩
  · intro raw d ms₁ m ms₂
    rw [applyMappings_append]
    simp only [applyMappings]
  · intro raw d m e h
    unfold planStep
    rw [h]

/-- Witness for C2: a non-dict operation raises `AttributeError` inside
the loop body and degrades to a single `[PLAN_APPLY_ERROR]` line with the
table untouched. -/
theorem claim_C2_per_op_isolation_witness :
    planStep rawW idealW Jv.null = (idealW, "[PLAN_APPLY_ERROR] " ++ attrError) :=
  claim_C2_per_op_isolation.2.2 rawW idealW Jv.null attrError rfl

/-- An operation object of the given kind referencing one source column
and one target column, as `json.loads` would produce it. -/
def op1 (kind src tgt : String) : Jv :=
  if kind = "concat" then
    .obj [("op", .str kind), ("sources", .arr [.str src]), ("target", .str tgt)]
  else
    .obj [("op", .str kind), ("source", .str src), ("target", .str tgt)]

lemma pyInt_two : pyInt (Jv.num 2) = .ok 2 := rfl

/-- A well-formed `concat` operation object over string sources. -/
def mkConcatOp (srcs : List String) (sep tgt : String) : Jv :=
  .obj [("op", .str "concat"), ("sources", .arr (srcs.map .str)),
    ("separator", .str sep), ("target", .str tgt)]

/-- Each member of a string list occurs verbatim inside the Python list
repr that the concat skip line interpolates. -/
lemma jreprList_mem (l : List String) (s : String) (h : s ∈ l) :
    ∃ p q, (jreprList (l.map Jv.str)).data = p ++ s.data ++ q := by
  induction l with
  | nil => cases h
  | cons x xs ih =>
    cases xs with
    | nil =>
      have hs : s = x := by simpa using h
      subst hs
      refine ⟨"\x27".data, "\x27".data, ?_⟩
      simp [jreprList, jrepr, String.data_append, List.append_assoc]
    | cons y ys =>
      rcases List.mem_cons.mp h with rfl | h'
      · refine ⟨"\x27".data,
          "\x27".data ++ ", ".data ++ (jreprList ((y :: ys).map Jv.str)).data, ?_⟩
        simp [jreprList, jrepr, String.data_append, List.append_assoc]
      · obtain ⟨p, q, hpq⟩ := ih h'
        simp only [List.map_cons] at hpq
        refine ⟨("\x27" ++ x ++ "\x27" ++ ", ").data ++ p, q, ?_⟩
        simp [jreprList, jrepr, String.data_append, List.append_assoc, hpq]

def opC3bad : Jv :=
  .obj [("op", .str "numeric_copy"), ("source", .str "ZZ"),
    ("target", .str "B"), ("decimals", .str "abc")]

/-- C3 counterexample: a `numeric_copy` whose source column `ZZ` is absent
from the raw table but whose `decimals` field is the string `"abc"` does
NOT produce a skip log entry: `int("abc")` raises before the column check
(main.py:170 precedes the guard), so the executor logs a single
`[PLAN_APPLY_ERROR]` line instead.  The table is still unmodified, but the
claim's "appends a skip log entry" is false for this operation. -/
theorem claim_C3_missing_column_counterexample :
    planStep rawW idealW opC3bad
      = (idealW,
        "[PLAN_APPLY_ERROR] ValueError: invalid literal for int() with base 10")
    ∧ ("Skipped".data.isPrefixOf
        ("[PLAN_APPLY_ERROR] ValueError: invalid literal for int() with base 10"
          : String).data)
      = false := by
  exact ⟨rfl, by decide⟩

/-- C3 (amended): for every operation whose fields are themselves
well-formed — string source/target references, any list of string sources
for `concat`, a `decimals` value `int()` accepts (or absent) for
`numeric_copy`, any constant for `fill_const` — if a required source
column is absent from the raw table or the target column is absent from
the ideal table, the executor appends a `Skipped ...` log line naming the
operation's column references (in particular the missing one) and returns
the ideal table completely unmodified.  An operation whose `decimals`
field itself raises instead contributes one `[PLAN_APPLY_ERROR]` line,
likewise leaving the table unmodified. -/
theorem claim_C3_missing_column_skips :
    -- single-source kinds (numeric_copy here with the decimals field absent)
    (∀ (kind src tgt : String) (raw ideal : Table),
      (kind = "copy" ∨ kind = "date_copy" ∨ kind = "calendar_year" ∨
        kind = "fiscal_year_july_june" ∨ kind = "numeric_copy") →
      (hasCol raw src = false ∨ hasCol ideal tgt = false) →
      ∃ pre mid post : String,
        applyOp (op1 kind src tgt) raw ideal
          = .ok (ideal, pre ++ src ++ mid ++ tgt ++ post)
        ∧ ∃ r : String, pre = "Skipped" ++ r)
    -- numeric_copy with an explicit decimals field that int() accepts
    ∧ (∀ (src tgt : String) (decJ : Jv) (k : ℤ) (raw ideal : Table),
      pyInt decJ = .ok k →
      (hasCol raw src = false ∨ hasCol ideal tgt = false) →
      ∃ pre mid post : String,
        applyOp (.obj [("op", .str "numeric_copy"), ("source", .str src),
          ("target", .str tgt), ("decimals", decJ)]) raw ideal
          = .ok (ideal, pre ++ src ++ mid ++ tgt ++ post)
        ∧ ∃ r : String, pre = "Skipped" ++ r)
    -- concat with any list of string sources
    ∧ (∀ (srcs : List String) (sep tgt : String) (raw ideal : Table),
      ((∃ s ∈ srcs, hasCol raw s = false) ∨ hasCol ideal tgt = false) →
      ∃ line : String,
        applyOp (mkConcatOp srcs sep tgt) raw ideal = .ok (ideal, line)
        ∧ (∃ r : String, line = "Skipped" ++ r)
        ∧ (∀ s ∈ srcs, ∃ p q, line.data = p ++ s.data ++ q)
        ∧ (∃ p q, line.data = p ++ tgt.data ++ q))
    -- fill_const with a missing target column
    ∧ (∀ (val : Jv) (tgt : String) (raw ideal : Table),
      hasCol ideal tgt = false →
      ∃ pre post : String,
        applyOp (.obj [("op", .str "fill_const"), ("value", val),
          ("target", .str tgt)]) raw ideal
          = .ok (ideal, pre ++ tgt ++ post)
        ∧ ∃ r : String, pre = "Skipped" ++ r)
    -- a decimals field int() rejects raises; one error line, no mutation
    ∧ (∀ (src tgt : String) (decJ : Jv) (e : String) (raw ideal : Table),
      pyInt decJ = .error e →
      planStep raw ideal (.obj [("op", .str "numeric_copy"),
        ("source", .str src), ("target", .str tgt), ("decimals", decJ)])
        = (ideal, "[PLAN_APPLY_ERROR] " ++ e)) := by
  refine ⟨?_, ?_, ?_, ?_, ?_⟩
  · intro kind src tgt raw ideal hk hmiss
    rcases hk with rfl | rfl | rfl | rfl | rfl
    · rcases hmiss with h | h <;>
        · refine ⟨"Skipped copy \"", "\"→\"", "\" (missing col)", ?_,
            " copy \"", by decide⟩
          simp [applyOp, op1, dget, dgetD, jeqs, hasColJ, jstr, opCopy, h]
    · rcases hmiss with h | h <;>
        · refine ⟨"Skipped date_copy \"", "\"→\"", "\" (missing col)", ?_,
            " date_copy \"", by decide⟩
          simp [applyOp, op1, dget, dgetD, jeqs, hasColJ, jstr, opDateCopy, h]
    · rcases hmiss with h | h <;>
        · refine ⟨"Skipped calendar_year \"", "\"→\"", "\" (missing col)", ?_,
            " calendar_year \"", by decide⟩
          simp [applyOp, op1, dget, dgetD, jeqs, hasColJ, jstr, opCalYear, h]
    · rcases hmiss with h | h <;>
        · refine ⟨"Skipped fiscal_year \"", "\"→\"", "\" (missing col)", ?_,
            " fiscal_year \"", by decide⟩
          simp [applyOp, op1, dget, dgetD, jeqs, hasColJ, jstr, opFiscal, h]
    · rcases hmiss with h | h <;>
        · refine ⟨"Skipped numeric_copy \"", "\"→\"", "\" (missing col)", ?_,
            " numeric_copy \"", by decide⟩
          simp [applyOp, op1, dget, dgetD, jeqs, hasColJ, jstr, opNumeric,
            pyInt_two, h]
  · intro src tgt decJ k raw ideal hdec hmiss
    rcases hmiss with h | h <;>
      · refine ⟨"Skipped numeric_copy \"", "\"→\"", "\" (missing col)", ?_,
          " numeric_copy \"", by decide⟩
        simp [applyOp, dget, dgetD, jeqs, hasColJ, jstr, opNumeric, hdec, h]
  · intro srcs sep tgt raw ideal hmiss
    have hgP : ¬ ((∀ x ∈ srcs.map Jv.str, hasColJ raw x = true)
        ∧ hasColJ ideal (Jv.str tgt) = true) := by
      rcases hmiss with ⟨s, hs, hfalse⟩ | hfalse
      · rintro ⟨hall, -⟩
        have hx := hall (Jv.str s) (List.mem_map.mpr ⟨s, hs, rfl⟩)
        rw [show hasColJ raw (Jv.str s) = hasCol raw s from rfl, hfalse] at hx
        cases hx
      · rintro ⟨-, htg⟩
        rw [show hasColJ ideal (Jv.str tgt) = hasCol ideal tgt from rfl,
          hfalse] at htg
        cases htg
    have happ : applyOp (mkConcatOp srcs sep tgt) raw ideal
        = .ok (ideal, "Skipped concat " ++ jstr (Jv.arr (srcs.map Jv.str))
            ++ "→\"" ++ jstr (.str tgt) ++ "\" (missing col)") := by
      simp [applyOp, mkConcatOp, opConcat, dget, dgetD, jeqs, pyIter, hgP]
      intro hall htg
      refine absurd ⟨?_, htg⟩ hgP
      intro x hx
      obtain ⟨a, ha, rfl⟩ := List.mem_map.mp hx
      exact hall a ha
    have hdata : ("Skipped concat " ++ jstr (Jv.arr (srcs.map Jv.str))
          ++ "→\"" ++ jstr (.str tgt) ++ "\" (missing col)").data
        = ("Skipped concat " ++ "[").data ++ (jreprList (srcs.map Jv.str)).data
          ++ (("]" ++ "→\"").data ++ tgt.data ++ "\" (missing col)".data) := by
      simp [jstr, jrepr, String.data_append, List.append_assoc]
    refine ⟨_, happ, ?_, ?_, ?_⟩
    · refine ⟨" concat " ++ jstr (Jv.arr (srcs.map Jv.str))
        ++ "→\"" ++ jstr (.str tgt) ++ "\" (missing col)", ?_⟩
      apply String.ext
      simp [String.data_append, List.append_assoc]
    · intro s hs
      obtain ⟨p, q, hpq⟩ := jreprList_mem srcs s hs
      refine ⟨("Skipped concat " ++ "[").data ++ p,
        q ++ (("]" ++ "→\"").data ++ tgt.data ++ "\" (missing col)".data), ?_⟩
      rw [hdata, hpq]
      simp [List.append_assoc]
    · refine ⟨("Skipped concat " ++ "[").data ++ (jreprList (srcs.map Jv.str)).data
          ++ ("]" ++ "→\"").data,
        "\" (missing col)".data, ?_⟩
      rw [hdata]
      simp [List.append_assoc]
  · intro val tgt raw ideal htgt
    refine ⟨"Skipped fill_const \"" ++ jstr val ++ "\"→\"", "\" (missing col)",
      ?_, ?_⟩
    · simp [applyOp, dget, dgetD, jeqs, hasColJ, jstr, opFillConst, htgt]
    · refine ⟨" fill_const \"" ++ jstr val ++ "\"→\"", ?_⟩
      apply String.ext
      simp [String.data_append, List.append_assoc]
  · intro src tgt decJ e raw ideal hdec
    unfold planStep
    have herr : applyOp (.obj [("op", .str "numeric_copy"),
        ("source", .str src), ("target", .str tgt), ("decimals", decJ)]) raw ideal
        = .error e := by
      simp [applyOp, dget, dgetD, jeqs, opNumeric, hdec]
    rw [herr]

/-- Witness for the amended C3: a `copy` from a column absent in the raw
table skips and leaves the table untouched. -/
theorem claim_C3_missing_column_skips_witness :
    ∃ pre mid post : String,
      applyOp (op1 "copy" "ZZ" "B") rawW idealW
        = .ok (idealW, pre ++ "ZZ" ++ mid ++ "B" ++ post)
      ∧ ∃ r : String, pre = "Skipped" ++ r :=
  claim_C3_missing_column_skips.1 "copy" "ZZ" "B" rawW idealW
    (Or.inl rfl) (Or.inl rfl)

/-! ## C4: the `concat` row semantics -/

/-- The row value the claim (and spec table) describes for `concat`:
trim each source value (null as empty string), join all of them with the
separator, trim the joined result once, empty result becomes null.
This definition follows the spec's words, for comparison with the
executor. -/
def specConcatCell (vals : List Cell) (sep : String) : Cell :=
  strippedCell (pyStrip (String.intercalate sep (vals.map toStrippedStr)))

def rawC4 : Table :=
  ⟨[("A", [some (.str "Jane")]), ("B", [none]), ("C", [some (.str "Doe")])], 1⟩

def idealC4 : Table := ⟨[("T", [none])], 1⟩

/-- C4 counterexample: with three sources `"Jane"`, null, `"Doe"` and
separator `" "`, the executor trims after each pairwise concatenation and
produces `"Jane Doe"`, while the claim's join-then-trim formula produces
`"Jane  Doe"` (two spaces).  The claim as stated is false on the code. -/
theorem claim_C4_concat_rows_counterexample :
    getCol (planStep rawC4 idealC4 (mkConcatOp ["A", "B", "C"] " " "T")).1 "T"
      ≠ [specConcatCell [some (.str "Jane"), none, some (.str "Doe")] " "] := by
  decide

/-- The row-level left fold actually performed by the executor: start from
the first trimmed value, then for each further value append separator and
value and trim the intermediate result. -/
def rowConcat (sep v : String) (ws : List String) : String :=
  ws.foldl (fun acc w => pyStrip (acc ++ sep ++ w)) v

lemma hasCol_iff (t : Table) (c : String) : hasCol t c = true ↔ c ∈ t.names := by
  simp [hasCol, List.contains, List.elem_iff]

lemma find?_of_hasCol (t : Table) (c : String) (h : hasCol t c = true) :
    ∃ p, t.cols.find? (fun p => p.1 = c) = some p ∧ p ∈ t.cols ∧ p.1 = c := by
  rw [hasCol_iff] at h
  unfold Table.names at h
  obtain ⟨p, hmem, hpc⟩ := List.mem_map.mp h
  have hsome : (t.cols.find? (fun p => p.1 = c)).isSome := by
    rw [List.find?_isSome]
    exact ⟨p, hmem, by simp [hpc]⟩
  obtain ⟨q, hq⟩ := Option.isSome_iff_exists.mp hsome
  refine ⟨q, hq, List.mem_of_find?_eq_some hq, ?_⟩
  have := List.find?_some hq
  simpa using this

lemma getCol_length (t : Table) (c : String) (hwf : t.WF) (h : hasCol t c = true) :
    (getCol t c).length = t.nrows := by
  obtain ⟨p, hf, hmem, _⟩ := find?_of_hasCol t c h
  unfold getCol
  rw [hf]
  exact hwf p hmem

lemma getCol_setCol_self (t : Table) (c : String) (v : List Cell)
    (h : hasCol t c = true) : getCol (setCol t c v) c = v := by
  obtain ⟨p, hf, hmem, hpc⟩ := find?_of_hasCol t c h
  unfold getCol setCol
  have key : ∀ l : List (String × List Cell), (∃ q ∈ l, q.1 = c) →
      ((l.map (fun q => if q.1 = c then (q.1, v) else q)).find?
        (fun q => q.1 = c)).map Prod.snd = some v := by
    intro l
    induction l with
    | nil => rintro ⟨q, hq, _⟩; cases hq
    | cons a l ih =>
      rintro ⟨q, hq, hqc⟩
      by_cases ha : a.1 = c
      · rw [List.map_cons, if_pos ha, List.find?_cons_of_pos _ (by simp [ha])]
        rfl
      · have hq' : q ∈ l := by
          rcases List.mem_cons.mp hq with rfl | h'
          · exact absurd hqc ha
          · exact h'
        rw [List.map_cons, if_neg ha, List.find?_cons_of_neg _ (by simp [ha])]
        exact ih ⟨q, hq', hqc⟩
  rw [key t.cols ⟨p, hmem, hpc⟩]
  rfl

lemma alignTo_getD (n : Nat) (xs : List Cell) (i : Nat) (hi : i < n)
    (hx : i < xs.length) : (alignTo n xs).getD i none = xs.getD i none := by
  unfold alignTo
  have htk : i < (xs.take n).length := by
    simp [List.length_take]
    exact ⟨hi, hx⟩
  rw [List.getD_eq_getElem?_getD, List.getElem?_append, if_pos htk,
    List.getElem?_take, if_pos hi, ← List.getD_eq_getElem?_getD]

lemma getD_map_cell (f : String → Cell) (l : List String) (i : Nat)
    (hi : i < l.length) : (l.map f).getD i none = f (l.getD i "") := by
  rw [List.getD_eq_getElem?_getD, List.getElem?_map]
  rw [List.getElem?_eq_getElem hi]
  simp [List.getD_eq_getElem?_getD, List.getElem?_eq_getElem hi]

lemma getD_map_str (f : Cell → String) (l : List Cell) (i : Nat)
    (hi : i < l.length) : (l.map f).getD i "" = f (l.getD i none) := by
  rw [List.getD_eq_getElem?_getD, List.getElem?_map]
  rw [List.getElem?_eq_getElem hi]
  simp [List.getD_eq_getElem?_getD, List.getElem?_eq_getElem hi]

lemma concatFold_length (sep : String) (vs : List (List String)) (v0 : List String)
    (L : Nat) (h0 : v0.length = L) (hvs : ∀ v ∈ vs, v.length = L) :
    (concatFold sep v0 vs).length = L := by
  induction vs generalizing v0 with
  | nil => exact h0
  | cons v vs ih =>
    unfold concatFold
    simp only [List.foldl_cons]
    have hz : (List.zipWith (fun a b => pyStrip (a ++ sep ++ b)) v0 v).length = L := by
      rw [List.length_zipWith, h0, hvs v (List.mem_cons_self v vs), Nat.min_self]
    exact ih _ hz (fun w hw => hvs w (List.mem_cons_of_mem v hw))

lemma concatFold_getD (sep : String) (vs : List (List String)) (v0 : List String)
    (L : Nat) (h0 : v0.length = L) (hvs : ∀ v ∈ vs, v.length = L) (i : Nat)
    (hi : i < L) :
    (concatFold sep v0 vs).getD i ""
      = rowConcat sep (v0.getD i "") (vs.map (fun v => v.getD i "")) := by
  induction vs generalizing v0 with
  | nil => rfl
  | cons v vs ih =>
    unfold concatFold rowConcat
    simp only [List.foldl_cons, List.map_cons]
    have hz : (List.zipWith (fun a b => pyStrip (a ++ sep ++ b)) v0 v).length = L := by
      rw [List.length_zipWith, h0, hvs v (List.mem_cons_self v vs), Nat.min_self]
    have hstep : (List.zipWith (fun a b => pyStrip (a ++ sep ++ b)) v0 v).getD i ""
        = pyStrip (v0.getD i "" ++ sep ++ v.getD i "") := by
      have hi0 : i < v0.length := h0 ▸ hi
      have hiv : i < v.length := (hvs v (List.mem_cons_self v vs)) ▸ hi
      rw [List.getD_eq_getElem?_getD, List.getElem?_zipWith,
        List.getElem?_eq_getElem hi0, List.getElem?_eq_getElem hiv]
      simp [List.getD_eq_getElem?_getD, List.getElem?_eq_getElem hi0,
        List.getElem?_eq_getElem hiv]
    have := ih _ hz (fun w hw => hvs w (List.mem_cons_of_mem v hw))
    unfold concatFold rowConcat at this
    rw [this, hstep]

/-- C4 (amended): for a `concat` whose sources all exist in the raw table
and whose target exists in the ideal table, each row of the target column
is the left fold that starts from the first trimmed source value (null
treated as empty string) and, for each further value, appends the
separator and the value and trims the intermediate result; a
whitespace-only final result becomes null.  (For two sources this
coincides with the claim's join-then-trim formula; for three or more it
can differ, see the counterexample.) -/
theorem claim_C4_concat_rows_amended (raw ideal : Table) (s0 : String)
    (rest : List String) (sep tgt : String) (i : Nat)
    (hwf : raw.WF)
    (hall : ∀ s ∈ s0 :: rest, hasCol raw s = true)
    (htgt : hasCol ideal tgt = true)
    (hi : i < ideal.nrows) (hir : i < raw.nrows) :
    (getCol (planStep raw ideal (mkConcatOp (s0 :: rest) sep tgt)).1 tgt).getD i none
      = strippedCell (rowConcat sep (toStrippedStr ((getCol raw s0).getD i none))
          (rest.map (fun s => toStrippedStr ((getCol raw s).getD i none)))) := by
  have hlen : ∀ s, hasCol raw s = true →
      ((getCol raw s).map toStrippedStr).length = raw.nrows := by
    intro s hs
    rw [List.length_map]
    exact getCol_length raw s hwf hs
  have hv0len : ((getCol raw s0).map toStrippedStr).length = raw.nrows :=
    hlen s0 (hall s0 (List.mem_cons_self s0 rest))
  have hvslen : ∀ v ∈ rest.map (fun s => (getCol raw s).map toStrippedStr),
      v.length = raw.nrows := by
    intro v hv
    obtain ⟨s, hs, rfl⟩ := List.mem_map.mp hv
    exact hlen s (hall s (List.mem_cons_of_mem s0 hs))
  have hfoldlen : (concatFold sep ((getCol raw s0).map toStrippedStr)
      (rest.map (fun s => (getCol raw s).map toStrippedStr))).length = raw.nrows :=
    concatFold_length sep _ _ _ hv0len hvslen
  have hop : applyOp (mkConcatOp (s0 :: rest) sep tgt) raw ideal
      = concatAssign (Jv.arr ((s0 :: rest).map .str)) (.str tgt) ideal
          (concatFold sep ((getCol raw s0).map toStrippedStr)
            (rest.map (fun s => (getCol raw s).map toStrippedStr))) := by
    cases rest with
    | nil =>
      have hs0 : hasCol raw s0 = true := hall s0 (List.mem_cons_self s0 [])
      simp [applyOp, mkConcatOp, opConcat, dget, dgetD, jeqs, pyIter,
        hasColJ, htgt, hs0, concatFold, asStr, List.map_map, Function.comp_def]
    | cons r rs =>
      have hs0 : hasCol raw s0 = true := hall s0 (by simp)
      have hsr : hasCol raw r = true := hall r (by simp)
      have hrs : ∀ a ∈ rs, hasCol raw a = true := fun a ha => hall a (by simp [ha])
      simp [applyOp, mkConcatOp, opConcat, dget, dgetD, jeqs, pyIter,
        hasColJ, htgt, hs0, hsr, hrs, asStr, List.map_map, Function.comp_def]
      intro x hx hfalse
      simp [hrs x hx] at hfalse
  have e1 : ((getCol raw s0).map toStrippedStr).getD i ""
      = toStrippedStr ((getCol raw s0).getD i none) :=
    getD_map_str toStrippedStr _ i
      ((getCol_length raw s0 hwf (hall s0 (List.mem_cons_self s0 rest))).symm ▸ hir)
  have e2 : (rest.map (fun s => (getCol raw s).map toStrippedStr)).map
        (fun v => v.getD i "")
      = rest.map (fun s => toStrippedStr ((getCol raw s).getD i none)) := by
    rw [List.map_map]
    apply List.map_congr_left
    intro s hs
    show ((getCol raw s).map toStrippedStr).getD i ""
      = toStrippedStr ((getCol raw s).getD i none)
    exact getD_map_str toStrippedStr _ i
      ((getCol_length raw s hwf (hall s (List.mem_cons_of_mem s0 hs))).symm ▸ hir)
  unfold planStep
  rw [hop]
  simp only [concatAssign, asStr]
  rw [getCol_setCol_self ideal tgt _ htgt]
  rw [alignTo_getD ideal.nrows _ i hi (by rw [List.length_map, hfoldlen]; exact hir)]
  rw [getD_map_cell strippedCell _ i (by rw [hfoldlen]; exact hir)]
  rw [concatFold_getD sep _ _ raw.nrows hv0len hvslen i hir]
  rw [e1, e2]

def rawC4w : Table := ⟨[("A", [some (.str "Jane")]), ("B", [none])], 1⟩

/-- Witness for the amended C4, which is also the claim's own example:
sources `"Jane"` and null with separator `" "` yield `"Jane"` (trimmed,
no trailing separator). -/
theorem claim_C4_concat_rows_amended_witness :
    (getCol (planStep rawC4w idealC4 (mkConcatOp ["A", "B"] " " "T")).1 "T").getD 0 none
      = some (.str "Jane") := by
  have h := claim_C4_concat_rows_amended rawC4w idealC4 "A" ["B"] " " "T" 0
    (by decide) (by decide) (by decide) (by decide) (by decide)
  rw [h]
  decide

/-! ## C5: `fiscal_year_july_june` row semantics -/

lemma getD_map_lt {α β : Type} (f : α → β) (l : List α) (i : Nat) (da : α)
    (db : β) (hi : i < l.length) : (l.map f).getD i db = f (l.getD i da) := by
  rw [List.getD_eq_getElem?_getD, List.getElem?_map, List.getElem?_eq_getElem hi]
  simp [List.getD_eq_getElem?_getD, List.getElem?_eq_getElem hi]

def rawC5 : Table :=
  ⟨[("D", [some (.str "2023-07-15"), some (.str "2023-06-15"), some (.str "nodate")])], 3⟩

def idealC5 : Table := ⟨[("FY", [none, none, none])], 3⟩

/-- The fiscal-year row semantics of the executor, stated against the
spec-side formula `year + 1` when `month ≥ 7`, else `year`. -/
lemma fiscal_row (raw ideal : Table) (src tgt : String) (i : Nat) (hwf : raw.WF)
    (hsrc : hasCol raw src = true) (htgt : hasCol ideal tgt = true)
    (hi : i < ideal.nrows) (hir : i < raw.nrows) :
    (getCol (planStep raw ideal (op1 "fiscal_year_july_june" src tgt)).1 tgt).getD i none
      = (((getCol raw src).getD i none).bind parseDateV).map
          (fun d => Value.num
            (if 7 ≤ d.month then (d.year : ℚ) + 1 else (d.year : ℚ))) := by
  have hop : applyOp (op1 "fiscal_year_july_june" src tgt) raw ideal
      = .ok (setCol ideal tgt (alignTo ideal.nrows
          (((getCol raw src).map (fun c => c.bind parseDateV)).map
            (Option.map (fun d =>
              Value.num ((d.year : ℚ) + (if 7 ≤ d.month then 1 else 0)))))),
        "Fiscal Year (July–June) from \"" ++ src ++ "\" → \"" ++ tgt ++ "\"") := by
    simp [applyOp, op1, opFiscal, dget, dgetD, jeqs, hasColJ, hsrc, htgt, asStr]
  have hps : (planStep raw ideal (op1 "fiscal_year_july_june" src tgt)).1
      = setCol ideal tgt (alignTo ideal.nrows
          (((getCol raw src).map (fun c => c.bind parseDateV)).map
            (Option.map (fun d =>
              Value.num ((d.year : ℚ) + (if 7 ≤ d.month then 1 else 0)))))) := by
    unfold planStep
    rw [hop]
  rw [hps]
  rw [getCol_setCol_self ideal tgt _ htgt]
  have hlen : (((getCol raw src).map (fun c => c.bind parseDateV)).map
      (Option.map (fun d =>
        Value.num ((d.year : ℚ) + (if 7 ≤ d.month then 1 else 0))))).length
      = raw.nrows := by
    rw [List.length_map, List.length_map]
    exact getCol_length raw src hwf hsrc
  rw [alignTo_getD ideal.nrows _ i hi (by rw [hlen]; exact hir)]
  rw [getD_map_lt _ _ i none none
    (by rw [List.length_map]; exact (getCol_length raw src hwf hsrc).symm ▸ hir)]
  rw [getD_map_lt _ _ i none none
    ((getCol_length raw src hwf hsrc).symm ▸ hir)]
  cases ((getCol raw src).getD i none).bind parseDateV with
  | none => rfl
  | some d =>
    by_cases h7 : 7 ≤ d.month
    · simp [h7]
    · simp [h7]

/-- C5: for a `fiscal_year_july_june` operation with existing source and
target columns, each row's target value is the parsed date's calendar year
plus one when the month is at least 7, the calendar year otherwise, and
null (unparseable) dates propagate to null; concretely `2023-07-15` gives
fiscal year `2024`, `2023-06-15` gives `2023`, and an unparseable date
gives null. -/
theorem claim_C5_fiscal_year :
    (∀ (raw ideal : Table) (src tgt : String) (i : Nat), raw.WF →
      hasCol raw src = true → hasCol ideal tgt = true →
      i < ideal.nrows → i < raw.nrows →
      (getCol (planStep raw ideal (op1 "fiscal_year_july_june" src tgt)).1 tgt).getD i none
        = (((getCol raw src).getD i none).bind parseDateV).map
            (fun d => Value.num
              (if 7 ≤ d.month then (d.year : ℚ) + 1 else (d.year : ℚ))))
    ∧ (getCol (planStep rawC5 idealC5 (op1 "fiscal_year_july_june" "D" "FY")).1 "FY").getD 0 none
        = some (.num 2024)
    ∧ (getCol (planStep rawC5 idealC5 (op1 "fiscal_year_july_june" "D" "FY")).1 "FY").getD 1 none
        = some (.num 2023)
    ∧ (getCol (planStep rawC5 idealC5 (op1 "fiscal_year_july_june" "D" "FY")).1 "FY").getD 2 none
        = none := by
  refine ⟨fiscal_row, ?_, ?_, ?_⟩
  · rw [fiscal_row rawC5 idealC5 "D" "FY" 0
      (by decide) (by decide) (by decide) (by decide) (by decide)]
    have hp : ((getCol rawC5 "D").getD 0 none).bind parseDateV
        = some ⟨2023, 7, 15⟩ := by decide
    rw [hp]
    norm_num
  · rw [fiscal_row rawC5 idealC5 "D" "FY" 1
      (by decide) (by decide) (by decide) (by decide) (by decide)]
    have hp : ((getCol rawC5 "D").getD 1 none).bind parseDateV
        = some ⟨2023, 6, 15⟩ := by decide
    rw [hp]
    norm_num
  · rw [fiscal_row rawC5 idealC5 "D" "FY" 2
      (by decide) (by decide) (by decide) (by decide) (by decide)]
    have hp : ((getCol rawC5 "D").getD 2 none).bind parseDateV = none := by decide
    rw [hp]
    rfl

def rawC5w : Table := ⟨[("D", [some (.str "2023-07-15")])], 1⟩

def idealC5w : Table := ⟨[("FY", [none])], 1⟩

/-- Witness for C5: the universally quantified part applied at the
`2023-07-15` row. -/
theorem claim_C5_fiscal_year_witness :
    (getCol (planStep rawC5w idealC5w (op1 "fiscal_year_july_june" "D" "FY")).1 "FY").getD 0 none
      = some (.num 2024) := by
  rw [claim_C5_fiscal_year.1 rawC5w idealC5w "D" "FY" 0
    (by decide) (by decide) (by decide) (by decide) (by decide)]
  have hp : ((getCol rawC5w "D").getD 0 none).bind parseDateV
      = some ⟨2023, 7, 15⟩ := by decide
  rw [hp]
  norm_num

/-! ## C6: `numeric_copy` row semantics -/

/-- The numeric-copy row semantics for any operation dict whose fields
resolve to the given source, target and decimals. -/
lemma numeric_row_core (kvs : List (String × Jv)) (raw ideal : Table)
    (src tgt : String) (k : ℤ) (i : Nat) (hwf : raw.WF)
    (hop : dget kvs "op" = .str "numeric_copy")
    (hsf : dget kvs "source" = .str src) (htf : dget kvs "target" = .str tgt)
    (hdec : pyInt (dgetD kvs "decimals" (.num 2)) = .ok k)
    (hsrc : hasCol raw src = true) (htgt : hasCol ideal tgt = true)
    (hi : i < ideal.nrows) (hir : i < raw.nrows) :
    (getCol (planStep raw ideal (.obj kvs)).1 tgt).getD i none
      = (((getCol raw src).getD i none).bind parseNumV).map
          (fun q => Value.num (roundTo q k)) := by
  have happ : applyOp (.obj kvs) raw ideal
      = .ok (setCol ideal tgt (alignTo ideal.nrows
          ((getCol raw src).map
            (fun c => ((c.bind parseNumV).map (fun q => Value.num (roundTo q k)))))),
        "Numeric copy \"" ++ src ++ "\" → \"" ++ tgt ++ "\" (round "
          ++ toString k ++ ")") := by
    simp [applyOp, opNumeric, hop, hsf, htf, hdec, jeqs, hasColJ, hsrc, htgt, asStr]
  have hps : (planStep raw ideal (.obj kvs)).1
      = setCol ideal tgt (alignTo ideal.nrows
          ((getCol raw src).map
            (fun c => ((c.bind parseNumV).map (fun q => Value.num (roundTo q k)))))) := by
    unfold planStep
    rw [happ]
  rw [hps]
  rw [getCol_setCol_self ideal tgt _ htgt]
  have hlen : ((getCol raw src).map
      (fun c => ((c.bind parseNumV).map (fun q => Value.num (roundTo q k))))).length
      = raw.nrows := by
    rw [List.length_map]
    exact getCol_length raw src hwf hsrc
  rw [alignTo_getD ideal.nrows _ i hi (by rw [hlen]; exact hir)]
  rw [getD_map_lt _ _ i none none
    ((getCol_length raw src hwf hsrc).symm ▸ hir)]

/-- A `numeric_copy` operation object with an explicit integer `decimals`
field. -/
def mkNumericOp (src tgt : String) (k : ℤ) : Jv :=
  .obj [("op", .str "numeric_copy"), ("source", .str src), ("target", .str tgt),
    ("decimals", .num (k : ℚ))]

lemma pyInt_intCast (k : ℤ) : pyInt (.num (k : ℚ)) = .ok k := by
  show Except.ok (if (k : ℚ) < 0 then ⌈(k : ℚ)⌉ else ⌊(k : ℚ)⌋) = .ok k
  by_cases hk : (k : ℚ) < 0
  · rw [if_pos hk, Int.ceil_intCast]
  · rw [if_neg hk, Int.floor_intCast]

def rawC6 : Table := ⟨[("N", [some (.str "12.345"), some (.str "abc")])], 2⟩

def idealC6 : Table := ⟨[("T", [none, none])], 2⟩

/-- C6: for a `numeric_copy` with existing source and target columns, each
row's target value is the source value coerced to a number and rounded to
the `decimals` field, or to 2 decimals when the field is absent, with
unparseable values becoming null; concretely `"12.345"` with `decimals=2`
yields `12.34` or `12.35`, and `"abc"` yields null. -/
theorem claim_C6_numeric_copy :
    (∀ (raw ideal : Table) (src tgt : String) (k : ℤ) (i : Nat), raw.WF →
      hasCol raw src = true → hasCol ideal tgt = true →
      i < ideal.nrows → i < raw.nrows →
      (getCol (planStep raw ideal (mkNumericOp src tgt k)).1 tgt).getD i none
        = (((getCol raw src).getD i none).bind parseNumV).map
            (fun q => Value.num (roundTo q k)))
    ∧ (∀ (raw ideal : Table) (src tgt : String) (i : Nat), raw.WF →
      hasCol raw src = true → hasCol ideal tgt = true →
      i < ideal.nrows → i < raw.nrows →
      (getCol (planStep raw ideal (op1 "numeric_copy" src tgt)).1 tgt).getD i none
        = (((getCol raw src).getD i none).bind parseNumV).map
            (fun q => Value.num (roundTo q 2)))
    ∧ ((getCol (planStep rawC6 idealC6 (mkNumericOp "N" "T" 2)).1 "T").getD 0 none
          = some (.num 12.34)
        ∨ (getCol (planStep rawC6 idealC6 (mkNumericOp "N" "T" 2)).1 "T").getD 0 none
          = some (.num 12.35))
    ∧ (getCol (planStep rawC6 idealC6 (mkNumericOp "N" "T" 2)).1 "T").getD 1 none
        = none := by
  have hgen : ∀ (raw ideal : Table) (src tgt : String) (k : ℤ) (i : Nat), raw.WF →
      hasCol raw src = true → hasCol ideal tgt = true →
      i < ideal.nrows → i < raw.nrows →
      (getCol (planStep raw ideal (mkNumericOp src tgt k)).1 tgt).getD i none
        = (((getCol raw src).getD i none).bind parseNumV).map
            (fun q => Value.num (roundTo q k)) := by
    intro raw ideal src tgt k i hwf hsrc htgt hi hir
    exact numeric_row_core _ raw ideal src tgt k i hwf rfl rfl rfl
      (by simp [dgetD, mkNumericOp, pyInt_intCast]) hsrc htgt hi hir
  refine ⟨hgen, ?_, ?_, ?_⟩
  · intro raw ideal src tgt i hwf hsrc htgt hi hir
    exact numeric_row_core _ raw ideal src tgt 2 i hwf rfl rfl rfl rfl
      hsrc htgt hi hir
  · left
    rw [hgen rawC6 idealC6 "N" "T" 2 0
      (by decide) (by decide) (by decide) (by decide) (by decide)]
    have hp : ((getCol rawC6 "N").getD 0 none).bind parseNumV
        = some (((12 : ℕ) : ℚ) + ((345 : ℕ) : ℚ) / (10 : ℚ) ^ (3 : ℕ)) := rfl
    rw [hp]
    have hval : (((12 : ℕ) : ℚ) + ((345 : ℕ) : ℚ) / (10 : ℚ) ^ (3 : ℕ))
        = (12.345 : ℚ) := by norm_num
    rw [hval]
    have hfl : ⌊(1234.5 : ℚ)⌋ = 1234 := by
      rw [Int.floor_eq_iff]
      norm_num
    have hround : roundTo (12.345 : ℚ) 2 = (12.34 : ℚ) := by
      unfold roundTo roundHalfEven
      have hmul : (12.345 : ℚ) * (10 : ℚ) ^ (2 : ℤ) = (1234.5 : ℚ) := by
        norm_num
      rw [hmul, hfl]
      have hfrac : (1234.5 : ℚ) - ((1234 : ℤ) : ℚ) = 1/2 := by norm_num
      rw [hfrac]
      rw [if_neg (by norm_num), if_neg (by norm_num),
        if_pos (by decide : Even (1234 : ℤ))]
      norm_num
    show some (Value.num (roundTo (12.345 : ℚ) 2)) = some (Value.num 12.34)
    rw [hround]
  · rw [hgen rawC6 idealC6 "N" "T" 2 1
      (by decide) (by decide) (by decide) (by decide) (by decide)]
    have hp : ((getCol rawC6 "N").getD 1 none).bind parseNumV = none := rfl
    rw [hp]
    rfl

def rawC6w : Table := ⟨[("N", [some (.str "7")])], 1⟩

def idealC6w : Table := ⟨[("T", [none])], 1⟩

/-- Witness for C6: the default-decimals part applied at an integer
string, which rounds to itself. -/
theorem claim_C6_numeric_copy_witness :
    (getCol (planStep rawC6w idealC6w (op1 "numeric_copy" "N" "T")).1 "T").getD 0 none
      = some (.num 7) := by
  rw [claim_C6_numeric_copy.2.1 rawC6w idealC6w "N" "T" 0
    (by decide) (by decide) (by decide) (by decide) (by decide)]
  have hp : ((getCol rawC6w "N").getD 0 none).bind parseNumV
      = some (((7 : ℕ) : ℚ)) := rfl
  rw [hp]
  have hfl : ⌊(700 : ℚ)⌋ = 700 := by
    rw [Int.floor_eq_iff]
    norm_num
  have hround : roundTo ((7 : ℕ) : ℚ) 2 = ((7 : ℕ) : ℚ) := by
    unfold roundTo roundHalfEven
    have hmul : (((7 : ℕ) : ℚ)) * (10 : ℚ) ^ (2 : ℤ) = (700 : ℚ) := by norm_num
    rw [hmul, hfl]
    have hfrac : (700 : ℚ) - ((700 : ℤ) : ℚ) = 0 := by norm_num
    rw [hfrac]
    rw [if_pos (by norm_num)]
    norm_num
  show some (Value.num (roundTo ((7 : ℕ) : ℚ) 2)) = some (Value.num 7)
  rw [hround]
  norm_num

/-! ## C7: the Improvement Judge -/

def beforeC7 : Table :=
  ⟨[("A", [none, none, none, none, none]),
    ("B", [some (.str "x"), some (.str "x"), some (.str "x"),
      some (.str "x"), some (.str "x")])], 5⟩

def afterC7 : Table :=
  ⟨[("A", [some (.str "y"), some (.str "y"), some (.str "y"), none, none]),
    ("B", [some (.str "x"), some (.str "x"), some (.str "x"),
      some (.str "x"), none])], 5⟩

/-- C7: the Improvement Judge returns true iff at least one column of the
after-table has a strictly larger non-null cell count than in the
before-table; decreases elsewhere are irrelevant — with before-counts
`A:0, B:5` and after-counts `A:3, B:4` it still judges "improved". -/
theorem claim_C7_improvement_judge :
    (∀ before after : Table,
      improved before after = true
        ↔ ∃ c ∈ after.names, nonnull_count before c < nonnull_count after c)
    ∧ improved beforeC7 afterC7 = true := by
  constructor
  · intro before after
    unfold improved Table.names
    rw [List.any_eq_true]
    constructor
    · rintro ⟨p, hp, hlt⟩
      exact ⟨p.1, List.mem_map.mpr ⟨p, hp, rfl⟩, by simpa using hlt⟩
    · rintro ⟨c, hc, hlt⟩
      obtain ⟨p, hp, rfl⟩ := List.mem_map.mp hc
      exact ⟨p, hp, by simpa using hlt⟩
  · decide

/-! ## C9: row expansion before any mapping -/

/-- C9: when the ideal table has zero rows and the raw table is non-empty,
both the Plan Executor and the Fallback Rule Engine first expand the ideal
table to exactly the raw table's row count with every cell null (keeping
its columns); an ideal table that already has rows is passed through
unchanged; the mapping loop then runs on the expanded table, and no
operation ever changes the row count. -/
theorem claim_C9_row_expansion :
    (∀ raw ideal : Table, ideal.nrows = 0 → ¬ pandasEmpty raw →
      (ensureRows raw ideal).nrows = raw.nrows
      ∧ (ensureRows raw ideal).names = ideal.names
      ∧ ∀ p ∈ (ensureRows raw ideal).cols, ∀ c ∈ p.2, c = none)
    ∧ (∀ raw ideal : Table, ideal.nrows ≠ 0 → ensureRows raw ideal = ideal)
    ∧ (∀ (plan : Jv) (raw ideal : Table) (ms : List Jv),
        pyIter (getMappings plan) = .ok ms →
        apply_plan plan raw ideal = .ok (applyMappings raw (ensureRows raw ideal) ms))
    ∧ (∀ raw ideal : Table,
        apply_fallback_acs raw ideal = fallbackRules raw (ensureRows raw ideal))
    ∧ (∀ (raw d : Table) (ms : List Jv), (applyMappings raw d ms).1.nrows = d.nrows) := by
  refine ⟨?_, ?_, ?_, fun _ _ => rfl, fun raw d ms => applyMappings_nrows raw ms d⟩
  · intro raw ideal h0 hne
    unfold ensureRows
    rw [if_pos ⟨h0, hne⟩]
    refine ⟨rfl, blankTable_names ideal.names raw.nrows, ?_⟩
    intro p hp c hc
    obtain ⟨nm, _, rfl⟩ := List.mem_map.mp hp
    exact List.eq_of_mem_replicate hc
  · intro raw ideal h0
    unfold ensureRows
    rw [if_neg]
    rintro ⟨hz, _⟩
    exact h0 hz
  · intro plan raw ideal ms h
    simp only [apply_plan]
    rw [h]

def idealC9 : Table := ⟨[("X", [])], 0⟩

/-- Witness for C9: a zero-row ideal table against a one-row raw table is
expanded to one all-null row. -/
theorem claim_C9_row_expansion_witness :
    (ensureRows rawW idealC9).nrows = rawW.nrows
    ∧ (ensureRows rawW idealC9).names = idealC9.names
    ∧ ∀ p ∈ (ensureRows rawW idealC9).cols, ∀ c ∈ p.2, c = none :=
  claim_C9_row_expansion.1 rawW idealC9 rfl (by decide)

/-! ## C10: fallback discards the plan output -/

lemma ensureRows_idem (raw i : Table) :
    ensureRows raw (ensureRows raw i) = ensureRows raw i := by
  unfold ensureRows
  by_cases h : i.nrows = 0 ∧ ¬ pandasEmpty raw
  · rw [if_pos h, if_neg]
    rintro ⟨hz, hne⟩
    exact hne (Or.inl hz)
  · rw [if_neg h, if_neg h]

/-- C10: whenever the Improvement Judge classifies the plan output as not
improved, the final table is the Fallback Rule Engine applied to the
original pre-plan ideal table — every cell the Plan Executor wrote is
discarded, and the result does not depend on the plan at all. -/
theorem claim_C10_fallback_from_original (raw ideal0 : Table) (p1 p2 : Jv)
    (h1 : improved (ensureRows raw ideal0)
      (planOutcome (some p1) raw (ensureRows raw ideal0)) = false)
    (h2 : improved (ensureRows raw ideal0)
      (planOutcome (some p2) raw (ensureRows raw ideal0)) = false) :
    finalize_table (some p1) raw ideal0 = (apply_fallback_acs raw ideal0).1
    ∧ finalize_table (some p1) raw ideal0 = finalize_table (some p2) raw ideal0 := by
  have hfb : ∀ p : Jv,
      improved (ensureRows raw ideal0)
        (planOutcome (some p) raw (ensureRows raw ideal0)) = false →
      finalize_table (some p) raw ideal0 = (apply_fallback_acs raw ideal0).1 := by
    intro p hp
    unfold finalize_table
    rw [if_neg (by simp [hp])]
    show (fallbackRules raw (ensureRows raw (ensureRows raw ideal0))).1
      = (fallbackRules raw (ensureRows raw ideal0)).1
    rw [ensureRows_idem]
  refine ⟨hfb p1 h1, ?_⟩
  rw [hfb p1 h1, hfb p2 h2]

def planC10a : Jv := .obj []

def planC10b : Jv := .obj [("mappings", .arr [.obj [("op", .str "nope")]])]

/-- Witness for C10 at two plans with no effect: an empty plan and an
unknown-operation plan both fall back to the same rule-engine output. -/
theorem claim_C10_fallback_from_original_witness :
    finalize_table (some planC10a) rawW idealW = (apply_fallback_acs rawW idealW).1
    ∧ finalize_table (some planC10a) rawW idealW
      = finalize_table (some planC10b) rawW idealW :=
  claim_C10_fallback_from_original rawW idealW planC10a planC10b
    (by decide) (by decide)

/-! ## C8: the plan-block extractor -/

lemma findFenced_first (cs : List Char) (g : List Char)
    (h : findFenced cs = some g) :
    ∃ n, matchFencedAt (cs.drop n) = some g
      ∧ ∀ k < n, matchFencedAt (cs.drop k) = none := by
  induction cs with
  | nil => cases h
  | cons c cs ih =>
    unfold findFenced at h
    cases hm : matchFencedAt (c :: cs) with
    | some g' =>
      rw [hm] at h
      cases h
      exact ⟨0, hm, fun k hk => absurd hk (Nat.not_lt_zero k)⟩
    | none =>
      rw [hm] at h
      obtain ⟨n, h1, h2⟩ := ih h
      refine ⟨n + 1, by simpa [List.drop_succ_cons] using h1, ?_⟩
      intro k hk
      cases k with
      | zero => exact hm
      | succ k' =>
        rw [List.drop_succ_cons]
        exact h2 k' (Nat.lt_of_succ_lt_succ hk)

lemma firstBrace_some_spec (cs : List Char) (i : Nat)
    (h : firstBrace cs = some i) :
    cs[i]? = some lbrace ∧ ∀ k < i, cs[k]? ≠ some lbrace := by
  induction cs generalizing i with
  | nil => cases h
  | cons c cs ih =>
    unfold firstBrace at h
    by_cases hc : c = lbrace
    · rw [if_pos hc] at h
      cases h
      exact ⟨by simp [hc], fun k hk => absurd hk (Nat.not_lt_zero k)⟩
    · rw [if_neg hc] at h
      cases hf : firstBrace cs with
      | none => rw [hf] at h; cases h
      | some i' =>
        rw [hf] at h
        cases h
        obtain ⟨h1, h2⟩ := ih i' hf
        refine ⟨by simpa using h1, ?_⟩
        intro k hk
        cases k with
        | zero => simpa using hc
        | succ k' =>
          rw [List.getElem?_cons_succ]
          exact h2 k' (Nat.lt_of_succ_lt_succ hk)

lemma firstBrace_of (cs : List Char) (i : Nat)
    (hmem : cs[i]? = some lbrace)
    (hmin : ∀ k < i, cs[k]? ≠ some lbrace) : firstBrace cs = some i := by
  induction cs generalizing i with
  | nil => simp at hmem
  | cons c cs ih =>
    unfold firstBrace
    by_cases hc : c = lbrace
    · rw [if_pos hc]
      cases i with
      | zero => rfl
      | succ i' => exact absurd (by simp [hc]) (hmin 0 (Nat.succ_pos i'))
    · rw [if_neg hc]
      cases i with
      | zero => simp at hmem; exact absurd hmem hc
      | succ i' =>
        rw [ih i' (by simpa using hmem)
          (fun k hk => by simpa using hmin (k + 1) (Nat.succ_lt_succ hk))]
        rfl

lemma lastClose_none_imp (cs : List Char) (h : lastClose cs = none) :
    ∀ k : Nat, cs[k]? ≠ some rbrace := by
  induction cs with
  | nil => intro k; simp
  | cons c cs ih =>
    unfold lastClose at h
    cases hl : lastClose cs with
    | some j => rw [hl] at h; cases h
    | none =>
      rw [hl] at h
      by_cases hc : c = rbrace
      · rw [if_pos hc] at h; cases h
      · rw [if_neg hc] at h
        intro k
        cases k with
        | zero => simpa using hc
        | succ k' =>
          rw [List.getElem?_cons_succ]
          exact ih hl k'

lemma lastClose_some_spec (cs : List Char) (j : Nat)
    (h : lastClose cs = some j) :
    cs[j]? = some rbrace ∧ ∀ k : Nat, j < k → cs[k]? ≠ some rbrace := by
  induction cs generalizing j with
  | nil => cases h
  | cons c cs ih =>
    unfold lastClose at h
    cases hl : lastClose cs with
    | some j' =>
      rw [hl] at h
      cases h
      obtain ⟨h1, h2⟩ := ih j' hl
      refine ⟨by simpa using h1, ?_⟩
      intro k hk
      cases k with
      | zero => exact absurd hk (Nat.not_lt_zero _)
      | succ k' =>
        rw [List.getElem?_cons_succ]
        exact h2 k' (Nat.lt_of_succ_lt_succ hk)
    | none =>
      rw [hl] at h
      by_cases hc : c = rbrace
      · rw [if_pos hc] at h
        cases h
        refine ⟨by simp [hc], ?_⟩
        intro k hk
        cases k with
        | zero => exact absurd hk (Nat.lt_irrefl 0)
        | succ k' =>
          rw [List.getElem?_cons_succ]
          exact lastClose_none_imp cs hl k'
      · rw [if_neg hc] at h
        cases h

lemma lastClose_of (cs : List Char) (j : Nat)
    (hmem : cs[j]? = some rbrace)
    (hmax : ∀ k : Nat, j < k → cs[k]? ≠ some rbrace) : lastClose cs = some j := by
  induction cs generalizing j with
  | nil => simp at hmem
  | cons c cs ih
  =>
    unfold lastClose
    cases j with
    | zero =>
      have hc : c = rbrace := by simpa using hmem
      cases hl : lastClose cs with
      | some j' =>
        obtain ⟨h1, _⟩ := lastClose_some_spec cs j' hl
        exact absurd (by simpa using h1) (hmax (j' + 1) (Nat.succ_pos j'))
      | none => rw [if_pos hc]
    | succ j' =>
      rw [ih j' (by simpa using hmem)
        (fun k hk => by simpa using hmax (k + 1) (Nat.succ_lt_succ hk))]

lemma braceBlock_none (cs : List Char)
    (h : ¬ ∃ i j : Nat, i < j ∧ cs[i]? = some lbrace ∧ cs[j]? = some rbrace) :
    braceBlock cs = none := by
  unfold braceBlock
  cases hf : firstBrace cs with
  | none => rfl
  | some i =>
    cases hl : lastClose cs with
    | none => rfl
    | some j =>
      show (if i < j then some ((cs.drop i).take (j - i + 1)) else none) = none
      rw [if_neg]
      intro hij
      exact h ⟨i, j, hij, (firstBrace_some_spec cs i hf).1,
        (lastClose_some_spec cs j hl).1⟩

/-- C8: (1) when the model response contains a fenced structured block,
the extractor returns the first one (the match at the least starting
position), stripped; (2) otherwise, when the text contains a brace pair,
it returns the segment from the first opening brace to the last closing
brace, stripped; (3) when neither exists it returns the empty string —
an empty result, not an error (the extractor is a total function). -/
theorem claim_C8_extract_json_block :
    (∀ (text : String) (g : List Char), findFenced text.data = some g →
      extract_json_block text = pyStrip ⟨g⟩
      ∧ ∃ n, matchFencedAt (text.data.drop n) = some g
          ∧ ∀ k < n, matchFencedAt (text.data.drop k) = none)
    ∧ (∀ (text : String) (i j : Nat), findFenced text.data = none →
      i < j → text.data[i]? = some lbrace → text.data[j]? = some rbrace →
      (∀ k < i, text.data[k]? ≠ some lbrace) →
      (∀ k : Nat, j < k → text.data[k]? ≠ some rbrace) →
      extract_json_block text = pyStrip ⟨(text.data.drop i).take (j - i + 1)⟩)
    ∧ (∀ text : String, findFenced text.data = none →
      (¬ ∃ i j : Nat, i < j ∧ text.data[i]? = some lbrace
        ∧ text.data[j]? = some rbrace) →
      extract_json_block text = "") := by
  refine ⟨?_, ?_, ?_⟩
  · intro text g h
    constructor
    · unfold extract_json_block
      rw [h]
    · exact findFenced_first text.data g h
  · intro text i j hnf hij hi hj hmin hmax
    have hb : braceBlock text.data
        = some ((text.data.drop i).take (j - i + 1)) := by
      unfold braceBlock
      rw [firstBrace_of text.data i hi hmin, lastClose_of text.data j hj hmax]
      show (if i < j then some ((text.data.drop i).take (j - i + 1)) else none)
        = some ((text.data.drop i).take (j - i + 1))
      rw [if_pos hij]
    unfold extract_json_block
    rw [hnf, hb]
  · intro text hnf hnb
    unfold extract_json_block
    rw [hnf, braceBlock_none text.data hnb]

/-- Witness for C8: a response with a fenced block yields that block. -/
theorem claim_C8_extract_json_block_witness :
    extract_json_block "say ```json \x7b\"k\": 1\x7d ``` bye"
      = "\x7b\"k\": 1\x7d"
    ∧ ∃ n, matchFencedAt (("say ```json \x7b\"k\": 1\x7d ``` bye" : String).data.drop n)
          = some ("\x7b\"k\": 1\x7d" : String).data
        ∧ ∀ k < n, matchFencedAt
            (("say ```json \x7b\"k\": 1\x7d ``` bye" : String).data.drop k) = none := by
  have h := claim_C8_extract_json_block.1 "say ```json \x7b\"k\": 1\x7d ``` bye"
    ("\x7b\"k\": 1\x7d" : String).data rfl
  exact ⟨by rw [h.1]; decide, h.2⟩

end VivaStd
